import Mathlib

/-!
Verification of the dolphin-mcp orchestrator core against its specification.

The Python source (src/dolphin_mcp/client.py, src/dolphin_mcp/reasoning.py,
src/dolphin_mcp/providers/openai.py) is shallowly embedded below:

* Python JSON values (the results of `json.loads`) are the inductive `Json`.
* `json.loads` is modelled by `pyJsonLoads` (a recursive-descent parser with
  fuel) and `json.dumps` (default separators, `ensure_ascii=True`) by
  `pyDumps`.  Where the source applies the `json` module to data that the
  theorems quantify over (the long-payload spill), the codec is instead an
  explicit parameter constrained by the two properties every JSON codec
  enjoys (round-trip, and decoded strings no longer than their encoding).
* Python statements that can raise (`x in y` on a non-container, `.get` on a
  non-dict, `json.loads` on a non-string) are embedded in `Except Unit`.
* I/O is explicit: the temp-file path chosen by `tempfile.NamedTemporaryFile`
  is a parameter, the written file content is returned alongside the result.
-/

namespace DolphinMCP

/-- Python JSON values, as returned by `json.loads`: `None`, `bool`, `int`,
`str`, `list`, `dict` (with string keys, in insertion order).  Floats are not
needed by any theorem and are omitted from the embedding. -/
inductive Json where
  | null : Json
  | bool : Bool → Json
  | num : Int → Json
  | str : String → Json
  | arr : List Json → Json
  | obj : List (String × Json) → Json
deriving Repr

namespace Json

/-- Association-list lookup, modelling Python `dict` key access. -/
def lookup (kvs : List (String × Json)) (k : String) : Option Json :=
  match kvs with
  | [] => none
  | (k₀, v₀) :: rest => if k₀ = k then some v₀ else lookup rest k

/-- `dict` insertion: an existing key keeps its position and takes the new
value, a new key is appended (Python 3.7+ insertion-order semantics). -/
def insert (kvs : List (String × Json)) (k : String) (v : Json) :
    List (String × Json) :=
  match kvs with
  | [] => [(k, v)]
  | (k₀, v₀) :: rest =>
      if k₀ = k then (k₀, v) :: rest else (k₀, v₀) :: insert rest k v

/-- Python truthiness of a JSON value (`if x:`). -/
def truthy : Json → Bool
  | .null => false
  | .bool b => b
  | .num i => i ≠ 0
  | .str s => s ≠ ""
  | .arr xs => ¬ xs.isEmpty
  | .obj kvs => ¬ kvs.isEmpty

mutual

/-- Python `==` restricted to JSON values.  Structural, except that Python
identifies `True` with `1` and `False` with `0`. -/
def pyEq : Json → Json → Bool
  | .null, .null => true
  | .bool a, .bool b => a = b
  | .bool a, .num i => (if a then (1 : Int) else 0) = i
  | .num i, .bool a => (if a then (1 : Int) else 0) = i
  | .num a, .num b => a = b
  | .str a, .str b => a = b
  | .arr xs, .arr ys => pyEqList xs ys
  | .obj xs, .obj ys => pyEqObj xs ys
  | _, _ => false

/-- Python `==` on lists of JSON values. -/
def pyEqList : List Json → List Json → Bool
  | [], [] => true
  | x :: xs, y :: ys => pyEq x y && pyEqList xs ys
  | _, _ => false

/-- Python `==` on dicts embedded as ordered association lists.  (Real dict
equality is order-insensitive; the embedding only ever compares dicts that
were built in the same order, where the two notions agree.) -/
def pyEqObj : List (String × Json) → List (String × Json) → Bool
  | [], [] => true
  | (k, v) :: xs, (k₀, v₀) :: ys => k = k₀ && pyEq v v₀ && pyEqObj xs ys
  | _, _ => false

end

end Json

/-! ### Python string helpers -/

/-- Python `str.strip()` (no argument): remove leading and trailing
whitespace. -/
def pyStrip (s : String) : String :=
  String.mk (((s.toList.dropWhile Char.isWhitespace).reverse.dropWhile
    Char.isWhitespace).reverse)

/-- Python `str.rstrip(",")`: remove every trailing comma. -/
def pyRstripComma (s : String) : String :=
  String.mk (((s.toList.reverse).dropWhile (· = ',')).reverse)

/-- Python `str.split(sep, 1)` specialised to `"_"`: split on the first
underscore, returning the head and, when an underscore exists, the tail. -/
def pySplitOnceUnderscore (s : String) : String × Option String :=
  match s.toList.findIdx? (· = '_') with
  | none => (s, none)
  | some i =>
      (String.mk (s.toList.take i), some (String.mk (s.toList.drop (i + 1))))

/-- Python `str.replace(".", "_")`. -/
def pyReplaceDotUnderscore (s : String) : String :=
  String.mk (s.toList.map (fun c => if c = '.' then '_' else c))

/-! ### `json.dumps` (default separators `", "` and `": "`, `ensure_ascii`) -/

/-- Hex digit for `\uXXXX` escapes. -/
def hexDigit (n : Nat) : Char :=
  if n < 10 then Char.ofNat ('0'.toNat + n) else Char.ofNat ('a'.toNat + n - 10)

/-- Four-digit hex rendering of a code point (code points above `0xFFFF`
would use surrogate pairs in Python; no theorem exercises them). -/
def hex4 (n : Nat) : String :=
  String.mk [hexDigit (n / 4096 % 16), hexDigit (n / 256 % 16),
             hexDigit (n / 16 % 16), hexDigit (n % 16)]

/-- JSON string escaping as done by `json.dumps` with `ensure_ascii=True`. -/
def escChar (c : Char) : String :=
  if c = '"' then "\\\""
  else if c = '\\' then "\\\\"
  else if c = '\n' then "\\n"
  else if c = '\t' then "\\t"
  else if c = '\r' then "\\r"
  else if c.toNat < 32 ∨ c.toNat > 126 then "\\u" ++ hex4 c.toNat
  else String.mk [c]

/-- Escape a whole string for embedding in a JSON document. -/
def escString (s : String) : String :=
  String.join (s.toList.map escChar)

mutual

/-- `json.dumps(v)` with the default (compact) separators. -/
def pyDumps : Json → String
  | .null => "null"
  | .bool true => "true"
  | .bool false => "false"
  | .num i => toString i
  | .str s => "\"" ++ escString s ++ "\""
  | .arr xs => "[" ++ pyDumpsList xs ++ "]"
  | .obj kvs => "\x7b" ++ pyDumpsObj kvs ++ "\x7d"

/-- Comma-separated rendering of array elements. -/
def pyDumpsList : List Json → String
  | [] => ""
  | [x] => pyDumps x
  | x :: xs => pyDumps x ++ ", " ++ pyDumpsList xs

/-- Comma-separated rendering of object members. -/
def pyDumpsObj : List (String × Json) → String
  | [] => ""
  | [(k, v)] => "\"" ++ escString k ++ "\": " ++ pyDumps v
  | (k, v) :: kvs =>
      "\"" ++ escString k ++ "\": " ++ pyDumps v ++ ", " ++ pyDumpsObj kvs

end

/-! ### `json.loads` -/

/-- JSON whitespace as accepted between tokens by Python's `json.loads`. -/
def isJsonWs (c : Char) : Bool :=
  c = ' ' ∨ c = '\t' ∨ c = '\n' ∨ c = '\r'

/-- Skip JSON whitespace. -/
def skipWs : List Char → List Char
  | c :: cs => if isJsonWs c then skipWs cs else c :: cs
  | [] => []

/-- Value of one hex digit of a `\uXXXX` escape. -/
def hexVal (c : Char) : Option Nat :=
  if '0' ≤ c ∧ c ≤ '9' then some (c.toNat - '0'.toNat)
  else if 'a' ≤ c ∧ c ≤ 'f' then some (c.toNat - 'a'.toNat + 10)
  else if 'A' ≤ c ∧ c ≤ 'F' then some (c.toNat - 'A'.toNat + 10)
  else none

/-- Decode one string literal body (after the opening quote), returning the
decoded characters and the input remaining after the closing quote. -/
def decodeStr (fuel : Nat) (l : List Char) : Option (List Char × List Char) :=
  match fuel with
  | 0 => none
  | fuel + 1 =>
    let cont (c : Char) (rs : List Char) : Option (List Char × List Char) :=
      match decodeStr fuel rs with
      | some (cs, r) => some (c :: cs, r)
      | none => none
    match l with
    | [] => none
    | '"' :: rest => some ([], rest)
    | '\\' :: e :: rest =>
        (match e, rest with
         | '"', rs => cont '"' rs
         | '\\', rs => cont '\\' rs
         | '/', rs => cont '/' rs
         | 'b', rs => cont (Char.ofNat 8) rs
         | 'f', rs => cont (Char.ofNat 12) rs
         | 'n', rs => cont '\n' rs
         | 'r', rs => cont '\r' rs
         | 't', rs => cont '\t' rs
         | 'u', h₁ :: h₂ :: h₃ :: h₄ :: rs =>
             (match hexVal h₁, hexVal h₂, hexVal h₃, hexVal h₄ with
              | some a, some b, some c, some d =>
                  cont (Char.ofNat (a * 4096 + b * 256 + c * 16 + d)) rs
              | _, _, _, _ => none)
         | _, _ => none)
    | c :: rest => if c.toNat < 32 then none else cont c rest

/-- `dict`-building cons for object parsing: member `(k, v)` followed by the
members `kvs`; a later occurrence of `k` keeps `k`'s first position but wins
on value (Python dict semantics for duplicate JSON keys). -/
def objCons (k : String) (v : Json) (kvs : List (String × Json)) :
    List (String × Json) :=
  match Json.lookup kvs k with
  | some v₂ => (k, v₂) :: kvs.filter (fun kv => kv.1 ≠ k)
  | none => (k, v) :: kvs

/-- Collect a run of decimal digits. -/
def takeDigits (l : List Char) : List Char × List Char :=
  (l.takeWhile Char.isDigit, l.dropWhile Char.isDigit)

/-- Digits to a natural number. -/
def digitsToNat (ds : List Char) : Nat :=
  ds.foldl (fun acc c => acc * 10 + (c.toNat - '0'.toNat)) 0

mutual

/-- Parse one JSON value (fuel-based recursive descent mirroring what
`json.loads` accepts; exponent/fraction forms are not needed and rejected). -/
def decodeVal (fuel : Nat) (l : List Char) : Option (Json × List Char) :=
  match fuel with
  | 0 => none
  | fuel + 1 =>
    match skipWs l with
    | 'n' :: 'u' :: 'l' :: 'l' :: rest => some (.null, rest)
    | 't' :: 'r' :: 'u' :: 'e' :: rest => some (.bool true, rest)
    | 'f' :: 'a' :: 'l' :: 's' :: 'e' :: rest => some (.bool false, rest)
    | '"' :: rest =>
        match decodeStr (rest.length + 1) rest with
        | some (cs, r) => some (.str (String.mk cs), r)
        | none => none
    | '-' :: rest =>
        match takeDigits rest with
        | ([], _) => none
        | (ds, r) => some (.num (-(digitsToNat ds : Int)), r)
    | '[' :: rest =>
        (match skipWs rest with
         | ']' :: r => some (.arr [], r)
         | other => match decodeArrItems fuel other with
                    | some (xs, r) => some (.arr xs, r)
                    | none => none)
    | '\x7b' :: rest =>
        (match skipWs rest with
         | '\x7d' :: r => some (.obj [], r)
         | other => match decodeObjItems fuel other with
                    | some (kvs, r) => some (.obj kvs, r)
                    | none => none)
    | c :: rest =>
        if c.isDigit then
          match takeDigits (c :: rest) with
          | ([], _) => none
          | (ds, r) => some (.num (digitsToNat ds : Int), r)
        else none
    | [] => none

/-- Parse the comma-separated items of a non-empty array, up to `]`. -/
def decodeArrItems (fuel : Nat) (l : List Char) : Option (List Json × List Char) :=
  match fuel with
  | 0 => none
  | fuel + 1 =>
    match decodeVal fuel l with
    | none => none
    | some (v, rest) =>
      match skipWs rest with
      | ']' :: r => some ([v], r)
      | ',' :: r =>
          match decodeArrItems fuel r with
          | some (vs, r₂) => some (v :: vs, r₂)
          | none => none
      | _ => none

/-- Parse the comma-separated members of a non-empty object, up to `}`;
duplicate keys follow dict-insertion semantics (last value wins). -/
def decodeObjItems (fuel : Nat) (l : List Char) : Option (List (String × Json) × List Char) :=
  match fuel with
  | 0 => none
  | fuel + 1 =>
    match skipWs l with
    | '"' :: rest =>
      match decodeStr (rest.length + 1) rest with
      | none => none
      | some (kcs, afterKey) =>
        match skipWs afterKey with
        | ':' :: afterColon =>
          match decodeVal fuel afterColon with
          | none => none
          | some (v, rest₂) =>
            match skipWs rest₂ with
            | '\x7d' :: r => some ([(String.mk kcs, v)], r)
            | ',' :: r =>
                match decodeObjItems fuel r with
                | some (kvs, r₂) => some (objCons (String.mk kcs) v kvs, r₂)
                | none => none
            | _ => none
        | _ => none
    | _ => none

end

/-- `json.loads(s)`: parse, then require only whitespace to remain.  (The
fuel is generous; fuel sufficiency is never load-bearing in any theorem.) -/
def pyJsonLoads (s : String) : Option Json :=
  match decodeVal (2 * s.length + 8) s.toList with
  | some (v, rest) => if skipWs rest = [] then some v else none
  | none => none


/-! ### Long-payload spill (`process_long_fields`, client.py lines 455-529) -/

mutual

/-- `check_for_long_fields`: does any string field (string leaf reachable
through dict values and list items) exceed `maxLength`? -/
def checkLong (maxLength : Nat) : Json → Bool
  | Json.str s => maxLength < s.length
  | Json.obj kvs => checkLongObj maxLength kvs
  | Json.arr xs => checkLongList maxLength xs
  | Json.null => false
  | Json.bool _ => false
  | Json.num _ => false

/-- `check_for_long_fields` over list items. -/
def checkLongList (maxLength : Nat) : List Json → Bool
  | [] => false
  | x :: xs => checkLong maxLength x || checkLongList maxLength xs

/-- `check_for_long_fields` over dict values. -/
def checkLongObj (maxLength : Nat) : List (String × Json) → Bool
  | [] => false
  | (_, v) :: kvs => checkLong maxLength v || checkLongObj maxLength kvs

end

/-- The reference suffix appended to every truncated string:
`"\n\n<content_written_to_file:<path>>"`. -/
def spillMarker (path : String) : String :=
  "\n\n<content_written_to_file:" ++ path ++ ">"

/-- The string-level rewrite of `replace_long_fields`:
`preview = obj[:200] + "..." if len(obj) > 200 else obj`, then
`f"{preview}\n\n<content_written_to_file:{temp_file_path}>"`. -/
def replaceStr (path : String) (s : String) : String :=
  (if 200 < s.length then String.mk (s.toList.take 200) ++ "..." else s) ++
    spillMarker path

mutual

/-- `replace_long_fields`: rewrite every over-length string in the tree. -/
def replaceLong (maxLength : Nat) (path : String) : Json → Json
  | Json.str s => if maxLength < s.length then .str (replaceStr path s) else .str s
  | Json.obj kvs => .obj (replaceLongObj maxLength path kvs)
  | Json.arr xs => .arr (replaceLongList maxLength path xs)
  | Json.null => .null
  | Json.bool b => .bool b
  | Json.num i => .num i

/-- `replace_long_fields` over list items. -/
def replaceLongList (maxLength : Nat) (path : String) : List Json → List Json
  | [] => []
  | x :: xs => replaceLong maxLength path x :: replaceLongList maxLength path xs

/-- `replace_long_fields` over dict values. -/
def replaceLongObj (maxLength : Nat) (path : String) :
    List (String × Json) → List (String × Json)
  | [] => []
  | (k, v) :: kvs =>
      (k, replaceLong maxLength path v) :: replaceLongObj maxLength path kvs

end

/-- The MCP content-envelope test of `process_long_fields`: when the value is
a dict whose `"content"` is a non-empty list whose first element is a dict
with a `"text"` key, return that `"text"` value. -/
def envelopeText : Json → Option Json
  | Json.obj kvs =>
    match Json.lookup kvs "content" with
    | some (.arr (first :: _)) =>
        (match first with
         | Json.obj fkvs => Json.lookup fkvs "text"
         | _ => none)
    | _ => none
  | _ => none

/-- `tool_result["content"][0]["text"] = t` for a value known to have the
envelope shape (otherwise the value is returned unchanged). -/
def setEnvelopeText (j : Json) (t : String) : Json :=
  match j with
  | Json.obj kvs =>
    (match Json.lookup kvs "content" with
     | some (.arr (first :: rest)) =>
        (match first with
         | Json.obj fkvs =>
             .obj (Json.insert kvs "content"
               (.arr (.obj (Json.insert fkvs "text" (.str t)) :: rest)))
         | _ => j)
     | _ => j)
  | _ => j

/-- `process_long_fields(tool_result, max_length)` (client.py).

`loads` embeds `json.loads` and `dumps0` embeds
`json.dumps(·, indent=0, ensure_ascii=False)`; `tmpPath` is the name chosen
by `tempfile.NamedTemporaryFile`.  The result pairs the rewritten value with
the value written to the temp file (`json.dump(result, f, indent=2)` writes
the pre-replacement value), and is `.error ()` exactly when the code raises:
`json.loads` on a non-string envelope `"text"` raises `TypeError`, which no
`except` clause in the function catches. -/
def process_long_fields (loads : String → Option Json) (dumps0 : Json → String)
    (tmpPath : String) (maxLength : Nat) (tool_result : Json) :
    Except Unit (Json × Option Json) :=
  match tool_result with
  | Json.null | Json.bool _ | Json.num _ | .str _ => .ok (tool_result, none)
  | _ =>
    match envelopeText tool_result with
    | some (.str s) =>
        (match loads s with
         | some inner =>
             if checkLong maxLength inner then
               .ok (setEnvelopeText tool_result
                      (dumps0 (replaceLong maxLength tmpPath inner)),
                    some inner)
             else .ok (tool_result, none)
         | none =>
             if checkLong maxLength tool_result then
               .ok (replaceLong maxLength tmpPath tool_result, some tool_result)
             else .ok (tool_result, none))
    | some _ => .error ()
    | none =>
        if checkLong maxLength tool_result then
          .ok (replaceLong maxLength tmpPath tool_result, some tool_result)
        else .ok (tool_result, none)

/-! ### Lemmas about the spill helpers -/

mutual

theorem checkLong_mono {m n : Nat} (h : m ≤ n) :
    (v : Json) → checkLong m v = false → checkLong n v = false
  | Json.str s => by
      intro hv
      simp only [checkLong, decide_eq_false_iff_not, not_lt] at hv ⊢
      omega
  | Json.obj kvs => fun hv => checkLongObj_mono h kvs hv
  | Json.arr xs => fun hv => checkLongList_mono h xs hv
  | Json.null => fun _ => rfl
  | Json.bool _ => fun _ => rfl
  | Json.num _ => fun _ => rfl

theorem checkLongList_mono {m n : Nat} (h : m ≤ n) :
    (xs : List Json) → checkLongList m xs = false → checkLongList n xs = false
  | [] => fun _ => rfl
  | x :: xs => by
      intro hv
      simp only [checkLongList, Bool.or_eq_false_iff] at hv ⊢
      exact ⟨checkLong_mono h x hv.1, checkLongList_mono h xs hv.2⟩

theorem checkLongObj_mono {m n : Nat} (h : m ≤ n) :
    (kvs : List (String × Json)) →
      checkLongObj m kvs = false → checkLongObj n kvs = false
  | [] => fun _ => rfl
  | (k, v) :: kvs => by
      intro hv
      simp only [checkLongObj, Bool.or_eq_false_iff] at hv ⊢
      exact ⟨checkLong_mono h v hv.1, checkLongObj_mono h kvs hv.2⟩

end

theorem string_length_append (a b : String) :
    (a ++ b).length = a.length + b.length := by
  cases a with
  | mk la =>
    cases b with
    | mk lb =>
      show (String.mk (la ++ lb)).length = la.length + lb.length
      simp [String.length]

theorem length_string_mk (l : List Char) : (String.mk l).length = l.length := rfl

theorem spillMarker_length (p : String) : (spillMarker p).length = 28 + p.length := by
  have h₁ : ("\n\n<content_written_to_file:" : String).length = 27 := rfl
  have h₂ : (">" : String).length = 1 := rfl
  simp only [spillMarker, string_length_append, h₁, h₂]
  omega

theorem replaceStr_length (p s : String) :
    (replaceStr p s).length ≤ 231 + p.length := by
  have h₃ : ("..." : String).length = 3 := rfl
  have hts : s.toList.length = s.length := rfl
  unfold replaceStr
  by_cases h : 200 < s.length
  · simp only [h, if_true, string_length_append, spillMarker_length,
      length_string_mk, List.length_take, h₃]
    omega
  · simp only [h, if_false, string_length_append, spillMarker_length]
    omega

mutual

theorem checkLong_replaceLong {maxL : Nat} {p : String}
    (hp : 231 + p.length ≤ maxL) :
    (v : Json) → checkLong maxL (replaceLong maxL p v) = false
  | Json.str s => by
      have hb := replaceStr_length p s
      by_cases h : maxL < s.length
      · simp only [replaceLong, if_pos h, checkLong,
          decide_eq_false_iff_not, not_lt]
        omega
      · simp only [replaceLong, if_neg h, checkLong,
          decide_eq_false_iff_not, not_lt]
        omega
  | Json.obj kvs => checkLongObj_replaceLongObj hp kvs
  | Json.arr xs => checkLongList_replaceLongList hp xs
  | Json.null => rfl
  | Json.bool _ => rfl
  | Json.num _ => rfl

theorem checkLongList_replaceLongList {maxL : Nat} {p : String}
    (hp : 231 + p.length ≤ maxL) :
    (xs : List Json) → checkLongList maxL (replaceLongList maxL p xs) = false
  | [] => rfl
  | x :: xs => by
      simp only [replaceLongList, checkLongList, Bool.or_eq_false_iff]
      exact ⟨checkLong_replaceLong hp x, checkLongList_replaceLongList hp xs⟩

theorem checkLongObj_replaceLongObj {maxL : Nat} {p : String}
    (hp : 231 + p.length ≤ maxL) :
    (kvs : List (String × Json)) →
      checkLongObj maxL (replaceLongObj maxL p kvs) = false
  | [] => rfl
  | (k, v) :: kvs => by
      simp only [replaceLongObj, checkLongObj, Bool.or_eq_false_iff]
      exact ⟨checkLong_replaceLong hp v, checkLongObj_replaceLongObj hp kvs⟩

end

theorem lookup_insert (kvs : List (String × Json)) (k : String) (v : Json) :
    Json.lookup (Json.insert kvs k v) k = some v := by
  induction kvs with
  | nil => simp [Json.insert, Json.lookup]
  | cons kv rest ih =>
      by_cases h : kv.1 = k
      · simp [Json.insert, Json.lookup, h]
      · simpa [Json.insert, Json.lookup, h] using ih

theorem lookup_replaceLongObj (maxL : Nat) (p : String)
    (kvs : List (String × Json)) (k : String) :
    Json.lookup (replaceLongObj maxL p kvs) k =
      (Json.lookup kvs k).map (replaceLong maxL p) := by
  induction kvs with
  | nil => simp [replaceLongObj, Json.lookup]
  | cons kv rest ih =>
      by_cases h : kv.1 = k
      · simp [replaceLongObj, Json.lookup, h]
      · simpa [replaceLongObj, Json.lookup, h] using ih

/-- `replace_long_fields` never changes the shape tested by the envelope
check: the envelope text of the rewrite is the rewrite of the envelope
text. -/
theorem envelopeText_replaceLong (maxL : Nat) (p : String) (x : Json) :
    envelopeText (replaceLong maxL p x) =
      (envelopeText x).map (replaceLong maxL p) := by
  cases x with
  | obj kvs =>
      simp only [replaceLong, envelopeText, lookup_replaceLongObj]
      cases hc : Json.lookup kvs "content" with
      | none => rfl
      | some c =>
          simp only [Option.map_some']
          cases c with
          | arr xs =>
              cases xs with
              | nil => rfl
              | cons first rest =>
                  simp only [replaceLong, replaceLongList]
                  cases first with
                  | obj fkvs =>
                      simp [replaceLong, lookup_replaceLongObj]
                  | null => rfl
                  | bool b => rfl
                  | num i => rfl
                  | str s =>
                      by_cases hs : maxL < s.length <;>
                        simp [replaceLong, hs, envelopeText]
                  | arr ys => rfl
          | null => rfl
          | bool b => rfl
          | num i => rfl
          | str s =>
              by_cases hs : maxL < s.length <;>
                simp [replaceLong, hs, envelopeText]
          | obj o => rfl
  | null => rfl
  | bool b => rfl
  | num i => rfl
  | str s =>
      by_cases hs : maxL < s.length <;> simp [replaceLong, hs, envelopeText]
  | arr xs => rfl

/-- After `setEnvelopeText` on a value of envelope shape, the envelope text
is the assigned string. -/
theorem envelopeText_setEnvelopeText (x : Json) (t₀ : Json) (u : String)
    (h : envelopeText x = some t₀) :
    envelopeText (setEnvelopeText x u) = some (.str u) := by
  cases x with
  | obj kvs =>
      simp only [envelopeText] at h
      cases hc : Json.lookup kvs "content" with
      | none => rw [hc] at h; exact absurd h (by simp)
      | some c =>
          rw [hc] at h
          cases c with
          | arr xs =>
              cases xs with
              | nil => exact absurd h (by simp)
              | cons first rest =>
                  cases first with
                  | obj fkvs =>
                      simp only [setEnvelopeText, hc, envelopeText,
                        lookup_insert]
                  | null => exact absurd h (by simp)
                  | bool b => exact absurd h (by simp)
                  | num i => exact absurd h (by simp)
                  | str s => exact absurd h (by simp)
                  | arr ys => exact absurd h (by simp)
          | null => exact absurd h (by simp)
          | bool b => exact absurd h (by simp)
          | num i => exact absurd h (by simp)
          | str s => exact absurd h (by simp)
          | obj o => exact absurd h (by simp)
  | null => exact absurd h (by simp [envelopeText])
  | bool b => exact absurd h (by simp [envelopeText])
  | num i => exact absurd h (by simp [envelopeText])
  | str s => exact absurd h (by simp [envelopeText])
  | arr xs => exact absurd h (by simp [envelopeText])

/-- When `setEnvelopeText` fires (the envelope shape is present), the result
is again a dict. -/
theorem setEnvelopeText_shape (kvs : List (String × Json)) (t₀ : Json)
    (u : String) (h : envelopeText (Json.obj kvs) = some t₀) :
    ∃ kvs₂, setEnvelopeText (Json.obj kvs) u = Json.obj kvs₂ := by
  simp only [envelopeText] at h
  cases hc : Json.lookup kvs "content" with
  | none => rw [hc] at h; exact absurd h (by simp)
  | some c =>
      rw [hc] at h
      cases c with
      | arr xs =>
          cases xs with
          | nil => exact absurd h (by simp)
          | cons first rest =>
              cases first with
              | obj fkvs =>
                  refine ⟨Json.insert kvs "content" (Json.arr
                    (Json.obj (Json.insert fkvs "text" (Json.str u)) :: rest)), ?_⟩
                  simp [setEnvelopeText, hc]
              | null => exact absurd h (by simp)
              | bool b => exact absurd h (by simp)
              | num i => exact absurd h (by simp)
              | str s => exact absurd h (by simp)
              | arr ys => exact absurd h (by simp)
      | null => exact absurd h (by simp)
      | bool b => exact absurd h (by simp)
      | num i => exact absurd h (by simp)
      | str s => exact absurd h (by simp)
      | obj o => exact absurd h (by simp)

/-- A dict or list on which the spill finds nothing to do is returned
unchanged with no file written. -/
theorem plf_clean (loads : String → Option Json) (dumps0 : Json → String)
    (p : String) (maxL : Nat) (y : Json)
    (h : match envelopeText y with
         | some (Json.str s) =>
             (match loads s with
              | some v => checkLong maxL v = false
              | none => checkLong maxL y = false)
         | some _ => False
         | none => checkLong maxL y = false) :
    process_long_fields loads dumps0 p maxL y = .ok (y, none) := by
  cases y with
  | null => rfl
  | bool b => rfl
  | num i => rfl
  | str s => rfl
  | arr xs =>
      have he : envelopeText (Json.arr xs) = none := rfl
      rw [he] at h
      simp [process_long_fields, he, h]
  | obj kvs =>
      cases hc : envelopeText (Json.obj kvs) with
      | none =>
          rw [hc] at h
          simp [process_long_fields, hc, h]
      | some t =>
          rw [hc] at h
          cases t with
          | str s =>
              cases hl : loads s with
              | some v =>
                  simp only [hl] at h
                  simp [process_long_fields, hc, hl, h]
              | none =>
                  simp only [hl] at h
                  simp [process_long_fields, hc, hl, h]
          | null => exact absurd h (by simp)
          | bool b => exact absurd h (by simp)
          | num i => exact absurd h (by simp)
          | arr ys => exact absurd h (by simp)
          | obj o => exact absurd h (by simp)

/-! ### Claims C10, C7, C6 about the spill -/

/-- C10: `process_long_fields` returns any input that is neither a dict nor a
list unchanged and writes no file — in particular a bare top-level string
longer than the threshold is never spilled and is passed through verbatim. -/
theorem C10_non_container_passthrough
    (loads : String → Option Json) (dumps0 : Json → String)
    (p : String) (maxL : Nat) (x : Json)
    (harr : ∀ xs, x ≠ Json.arr xs) (hobj : ∀ kvs, x ≠ Json.obj kvs) :
    process_long_fields loads dumps0 p maxL x = .ok (x, none) := by
  cases x with
  | arr xs => exact absurd rfl (harr xs)
  | obj kvs => exact absurd rfl (hobj kvs)
  | null => rfl
  | bool b => rfl
  | num i => rfl
  | str s => rfl

/-- Witness for C10: a bare 20,000-character string (above the default
threshold 15,000) passes through unchanged, with no file written. -/
theorem C10_witness :
    (String.mk (List.replicate 20000 'a')).length = 20000 ∧
    process_long_fields (fun _ => none) (fun _ => "") "/tmp/spill.json" 15000
        (Json.str (String.mk (List.replicate 20000 'a'))) =
      .ok (Json.str (String.mk (List.replicate 20000 'a')), none) := by
  refine ⟨by rw [length_string_mk, List.length_replicate], ?_⟩
  exact C10_non_container_passthrough _ _ _ _ _
    (fun xs hx => by cases hx) (fun kvs hx => by cases hx)

/-- C7: when some string field exceeds the threshold — for an MCP content
envelope, a field of the JSON parsed from the inner `"text"` — the spill
writes the entire original (parsed) value to the single temp file and
rewrites every over-threshold string in the tree to its first 200 characters
followed by `"..."` and `"\n\n<content_written_to_file:<path>>"`; for an
envelope the rewritten tree is re-serialized back into the inner text. -/
theorem C7_spill_rewrite
    (loads : String → Option Json) (dumps0 : Json → String)
    (p : String) (maxL : Nat) :
    (∀ kvs s inner, envelopeText (Json.obj kvs) = some (Json.str s) →
        loads s = some inner → checkLong maxL inner = true →
        process_long_fields loads dumps0 p maxL (Json.obj kvs) =
          .ok (setEnvelopeText (Json.obj kvs)
                 (dumps0 (replaceLong maxL p inner)), some inner)) ∧
    (∀ x, ((∃ kvs, x = Json.obj kvs) ∨ (∃ xs, x = Json.arr xs)) →
        envelopeText x = none → checkLong maxL x = true →
        process_long_fields loads dumps0 p maxL x =
          .ok (replaceLong maxL p x, some x)) ∧
    (∀ s, maxL < s.length → 200 ≤ maxL →
        replaceLong maxL p (Json.str s) =
          Json.str (String.mk (s.toList.take 200) ++ "..." ++ spillMarker p)) := by
  refine ⟨?_, ?_, ?_⟩
  · intro kvs s inner hc hl hchk
    simp [process_long_fields, hc, hl, hchk]
  · intro x hx he hchk
    rcases hx with ⟨kvs, rfl⟩ | ⟨xs, rfl⟩
    · simp [process_long_fields, he, hchk]
    · simp [process_long_fields, he, hchk]
  · intro s hs h200
    have h : 200 < s.length := by omega
    simp [replaceLong, hs, replaceStr, h]

set_option maxRecDepth 4000 in
/-- Witness for C7: a concrete envelope whose inner text parses (through the
supplied parse function) to a tree with one over-threshold field, at
threshold 250 with a 251-character field. -/
theorem C7_witness :
    process_long_fields
        (fun s => if s = "T" then
            some (Json.obj [("big", Json.str (String.mk (List.replicate 251 'a')))])
          else none)
        (fun _ => "SERIALIZED") "/tmp/spill.json" 250
        (Json.obj [("content", Json.arr [Json.obj [("text", Json.str "T")]])]) =
      .ok (Json.obj [("content",
              Json.arr [Json.obj [("text", Json.str "SERIALIZED")]])],
           some (Json.obj [("big",
              Json.str (String.mk (List.replicate 251 'a')))])) ∧
    replaceLong 250 "/tmp/spill.json"
        (Json.str (String.mk (List.replicate 251 'a'))) =
      Json.str (String.mk ((String.mk (List.replicate 251 'a')).toList.take 200)
        ++ "..." ++ spillMarker "/tmp/spill.json") := by
  constructor
  · have hc : envelopeText
        (Json.obj [("content", Json.arr [Json.obj [("text", Json.str "T")]])]) =
        some (Json.str "T") := rfl
    have happ := (C7_spill_rewrite
        (fun s => if s = "T" then
            some (Json.obj [("big", Json.str (String.mk (List.replicate 251 'a')))])
          else none)
        (fun _ => "SERIALIZED") "/tmp/spill.json" 250).1
        [("content", Json.arr [Json.obj [("text", Json.str "T")]])]
        "T" (Json.obj [("big", Json.str (String.mk (List.replicate 251 'a')))])
        hc (by simp) (by decide)
    rw [happ]
    rfl
  · have happ := (C7_spill_rewrite (fun _ => none) (fun _ => "SERIALIZED")
        "/tmp/spill.json" 250).2.2
        (String.mk (List.replicate 251 'a'))
        (by rw [length_string_mk, List.length_replicate]; omega) (by omega)
    exact happ

/-- Spec-side reading of "no string field exceeds the threshold": for an MCP
content envelope whose inner `"text"` parses as JSON the fields counted are
those of the parsed value, otherwise those of the tree itself. -/
def noOverlongField (loads : String → Option Json) (maxL : Nat) (x : Json) :
    Prop :=
  match envelopeText x with
  | some (Json.str s) =>
      (match loads s with
       | some inner => checkLong maxL inner = false
       | none => checkLong maxL x = false)
  | _ => checkLong maxL x = false

/-- C6 counterexample: the claim "the spill is the identity on every input in
which no string field exceeds the threshold" fails at the envelope-shaped
input `{"content": [{"text": 5}]}`: no string field exceeds any threshold,
yet `process_long_fields` does not return the input — `json.loads(5)` raises
`TypeError`, and the function only catches `json.JSONDecodeError` there. -/
theorem C6_counterexample :
    process_long_fields (fun _ => none) (fun _ => "") "/tmp/spill.json" 15000
        (Json.obj [("content", Json.arr [Json.obj [("text", Json.num 5)]])]) =
      .error () ∧
    checkLong 15000
        (Json.obj [("content", Json.arr [Json.obj [("text", Json.num 5)]])]) =
      false :=
  ⟨rfl, rfl⟩

/-- C6 (amended): for any JSON codec (round-tripping `loads`/`dumps`, with
decoded string fields no longer than their encoding), `process_long_fields`
is the identity on every input in which no string field exceeds the
threshold — except envelope inputs whose inner `"text"` is not a string,
where it raises `TypeError` instead — and it is idempotent whenever it
succeeds, provided the temp-file path is shorter than the threshold minus
231 characters (true of the default threshold 15,000 and `/tmp` names). -/
theorem C6_spill_noop_and_idempotent
    (loads : String → Option Json) (dumps0 : Json → String)
    (hrt : ∀ v, loads (dumps0 v) = some v)
    (hbound : ∀ s v, loads s = some v → checkLong s.length v = false)
    (maxL : Nat) (p₁ p₂ : String) (hp₁ : 231 + p₁.length ≤ maxL) (x : Json) :
    ((∀ t, envelopeText x = some t → ∃ s, t = Json.str s) →
        noOverlongField loads maxL x →
        process_long_fields loads dumps0 p₁ maxL x = .ok (x, none)) ∧
    (∀ y w, process_long_fields loads dumps0 p₁ maxL x = .ok (y, w) →
        process_long_fields loads dumps0 p₂ maxL y = .ok (y, none)) := by
  constructor
  · intro henv hno
    apply plf_clean
    unfold noOverlongField at hno
    cases hc : envelopeText x with
    | none => rw [hc] at hno; exact hno
    | some t =>
        rw [hc] at hno
        cases t with
        | str s => exact hno
        | null => obtain ⟨s₂, hs⟩ := henv _ hc; exact absurd hs (by simp)
        | bool b => obtain ⟨s₂, hs⟩ := henv _ hc; exact absurd hs (by simp)
        | num i => obtain ⟨s₂, hs⟩ := henv _ hc; exact absurd hs (by simp)
        | arr ys => obtain ⟨s₂, hs⟩ := henv _ hc; exact absurd hs (by simp)
        | obj o => obtain ⟨s₂, hs⟩ := henv _ hc; exact absurd hs (by simp)
  · intro y w h
    cases x with
    | null =>
        simp only [process_long_fields, Except.ok.injEq, Prod.mk.injEq] at h
        obtain ⟨rfl, rfl⟩ := h
        rfl
    | bool b =>
        simp only [process_long_fields, Except.ok.injEq, Prod.mk.injEq] at h
        obtain ⟨rfl, rfl⟩ := h
        rfl
    | num i =>
        simp only [process_long_fields, Except.ok.injEq, Prod.mk.injEq] at h
        obtain ⟨rfl, rfl⟩ := h
        rfl
    | str s =>
        simp only [process_long_fields, Except.ok.injEq, Prod.mk.injEq] at h
        obtain ⟨rfl, rfl⟩ := h
        rfl
    | arr xs =>
        have he : envelopeText (Json.arr xs) = none := rfl
        simp only [process_long_fields, he] at h
        cases hchk : checkLong maxL (Json.arr xs) with
        | true =>
            rw [hchk] at h
            simp only [if_true, Except.ok.injEq, Prod.mk.injEq] at h
            obtain ⟨rfl, rfl⟩ := h
            apply plf_clean
            have he₂ : envelopeText (replaceLong maxL p₁ (Json.arr xs)) = none := by
              rw [envelopeText_replaceLong, he]; rfl
            rw [he₂]
            exact checkLong_replaceLong hp₁ _
        | false =>
            rw [hchk] at h
            simp only [if_false, Bool.false_eq_true, Except.ok.injEq,
              Prod.mk.injEq] at h
            obtain ⟨rfl, rfl⟩ := h
            apply plf_clean
            rw [he]
            exact hchk
    | obj kvs =>
        cases hc : envelopeText (Json.obj kvs) with
        | none =>
            simp only [process_long_fields, hc] at h
            cases hchk : checkLong maxL (Json.obj kvs) with
            | true =>
                rw [hchk] at h
                simp only [if_true, Except.ok.injEq, Prod.mk.injEq] at h
                obtain ⟨rfl, rfl⟩ := h
                apply plf_clean
                have hc₂ : envelopeText (replaceLong maxL p₁ (Json.obj kvs)) = none := by
                  rw [envelopeText_replaceLong, hc]; rfl
                rw [hc₂]
                exact checkLong_replaceLong hp₁ _
            | false =>
                rw [hchk] at h
                simp only [if_false, Bool.false_eq_true, Except.ok.injEq,
                  Prod.mk.injEq] at h
                obtain ⟨rfl, rfl⟩ := h
                apply plf_clean
                rw [hc]
                exact hchk
        | some t =>
            cases t with
            | str s =>
                simp only [process_long_fields, hc] at h
                cases hl : loads s with
                | some inner =>
                    simp only [hl] at h
                    cases hchk : checkLong maxL inner with
                    | true =>
                        rw [hchk] at h
                        simp only [if_true, Except.ok.injEq, Prod.mk.injEq] at h
                        obtain ⟨rfl, rfl⟩ := h
                        apply plf_clean
                        have he₂ := envelopeText_setEnvelopeText (Json.obj kvs)
                          (Json.str s) (dumps0 (replaceLong maxL p₁ inner)) hc
                        rw [he₂]
                        simp only [hrt]
                        exact checkLong_replaceLong hp₁ _
                    | false =>
                        rw [hchk] at h
                        simp only [if_false, Bool.false_eq_true, Except.ok.injEq,
                          Prod.mk.injEq] at h
                        obtain ⟨rfl, rfl⟩ := h
                        apply plf_clean
                        rw [hc]
                        simp only [hl]
                        exact hchk
                | none =>
                    simp only [hl] at h
                    cases hchk : checkLong maxL (Json.obj kvs) with
                    | true =>
                        rw [hchk] at h
                        simp only [if_true, Except.ok.injEq, Prod.mk.injEq] at h
                        obtain ⟨rfl, rfl⟩ := h
                        apply plf_clean
                        have hc₂ : envelopeText (replaceLong maxL p₁ (Json.obj kvs)) =
                            some (replaceLong maxL p₁ (Json.str s)) := by
                          rw [envelopeText_replaceLong, hc]; rfl
                        by_cases hs : maxL < s.length
                        · have hrepl : replaceLong maxL p₁ (Json.str s) =
                              Json.str (replaceStr p₁ s) := by
                            simp [replaceLong, hs]
                          rw [hrepl] at hc₂
                          rw [hc₂]
                          cases hl₂ : loads (replaceStr p₁ s) with
                          | some v =>
                              simp only [hl₂]
                              have hb := hbound _ _ hl₂
                              have hle : (replaceStr p₁ s).length ≤ maxL := by
                                have := replaceStr_length p₁ s
                                omega
                              exact checkLong_mono hle v hb
                          | none =>
                              simp only [hl₂]
                              exact checkLong_replaceLong hp₁ _
                        · have hrepl : replaceLong maxL p₁ (Json.str s) =
                              Json.str s := by
                            simp [replaceLong, hs]
                          rw [hrepl] at hc₂
                          rw [hc₂]
                          simp only [hl]
                          exact checkLong_replaceLong hp₁ _
                    | false =>
                        rw [hchk] at h
                        simp only [if_false, Bool.false_eq_true, Except.ok.injEq,
                          Prod.mk.injEq] at h
                        obtain ⟨rfl, rfl⟩ := h
                        apply plf_clean
                        rw [hc]
                        simp only [hl]
                        exact hchk
            | null => simp only [process_long_fields, hc] at h; exact Except.noConfusion h
            | bool b => simp only [process_long_fields, hc] at h; exact Except.noConfusion h
            | num i => simp only [process_long_fields, hc] at h; exact Except.noConfusion h
            | arr ys => simp only [process_long_fields, hc] at h; exact Except.noConfusion h
            | obj o => simp only [process_long_fields, hc] at h; exact Except.noConfusion h

/-! ### A concrete verified JSON codec

The two codec hypotheses of C6 hold of Python's `json` module; to discharge
them in the witness we exhibit a concrete codec (a simple length-prefixed
encoding) and prove both properties for it. -/

mutual

/-- Injective encoding of a JSON value as characters. -/
def encV : Json → List Char
  | .null => ['n']
  | .bool true => ['t']
  | .bool false => ['f']
  | .num i =>
      (if i < 0 then 'm' else 'p') :: (List.replicate i.natAbs '1' ++ ['.'])
  | .str s => 's' :: (List.replicate s.toList.length '1' ++ '.' :: s.toList)
  | .arr xs => '[' :: encVList xs
  | .obj kvs => '(' :: encVObj kvs

/-- Encoding of array elements, closed by `]`. -/
def encVList : List Json → List Char
  | [] => [']']
  | x :: xs => ',' :: (encV x ++ encVList xs)

/-- Encoding of object members, closed by `)`. -/
def encVObj : List (String × Json) → List Char
  | [] => [')']
  | (k, v) :: kvs =>
      'k' :: (List.replicate k.toList.length '1' ++ '.' :: k.toList
        ++ (encV v ++ encVObj kvs))

end

mutual

/-- Fuel needed by the decoder on an encoded value. -/
def needV : Json → Nat
  | .arr xs => needVList xs + 1
  | .obj kvs => needVObj kvs + 1
  | _ => 1

/-- Fuel needed on encoded array elements. -/
def needVList : List Json → Nat
  | [] => 1
  | x :: xs => needV x + needVList xs

/-- Fuel needed on encoded object members. -/
def needVObj : List (String × Json) → Nat
  | [] => 1
  | (_, v) :: kvs => needV v + needVObj kvs

end

mutual

/-- Decoder for `encV` (fuel-based). -/
def decV (fuel : Nat) (l : List Char) : Option (Json × List Char) :=
  match fuel with
  | 0 => none
  | fuel + 1 =>
    match l with
    | 'n' :: r => some (.null, r)
    | 't' :: r => some (.bool true, r)
    | 'f' :: r => some (.bool false, r)
    | 'p' :: r =>
        (match r.drop ((r.takeWhile (fun c => c = '1')).length) with
         | '.' :: r₂ =>
             some (.num ((r.takeWhile (fun c => c = '1')).length : Int), r₂)
         | _ => none)
    | 'm' :: r =>
        (match r.drop ((r.takeWhile (fun c => c = '1')).length) with
         | '.' :: r₂ =>
             some (.num (-((r.takeWhile (fun c => c = '1')).length : Int)), r₂)
         | _ => none)
    | 's' :: r =>
        (match r.drop ((r.takeWhile (fun c => c = '1')).length) with
         | '.' :: r₂ =>
             some (.str (String.mk
                     (r₂.take ((r.takeWhile (fun c => c = '1')).length))),
                   r₂.drop ((r.takeWhile (fun c => c = '1')).length))
         | _ => none)
    | '[' :: r =>
        (match decVList fuel r with
         | some (xs, r₂) => some (.arr xs, r₂)
         | none => none)
    | '(' :: r =>
        (match decVObj fuel r with
         | some (kvs, r₂) => some (.obj kvs, r₂)
         | none => none)
    | _ => none

/-- Decoder for `encVList`. -/
def decVList (fuel : Nat) (l : List Char) :
    Option (List Json × List Char) :=
  match fuel with
  | 0 => none
  | fuel + 1 =>
    match l with
    | ']' :: r => some ([], r)
    | ',' :: r =>
        (match decV fuel r with
         | some (x, r₂) =>
             (match decVList fuel r₂ with
              | some (xs, r₃) => some (x :: xs, r₃)
              | none => none)
         | none => none)
    | _ => none

/-- Decoder for `encVObj`. -/
def decVObj (fuel : Nat) (l : List Char) :
    Option (List (String × Json) × List Char) :=
  match fuel with
  | 0 => none
  | fuel + 1 =>
    match l with
    | ')' :: r => some ([], r)
    | 'k' :: r =>
        (match r.drop ((r.takeWhile (fun c => c = '1')).length) with
         | '.' :: r₂ =>
             (match decV fuel (r₂.drop ((r.takeWhile (fun c => c = '1')).length)) with
              | some (v, r₃) =>
                  (match decVObj fuel r₃ with
                   | some (kvs, r₄) =>
                       some ((String.mk
                           (r₂.take ((r.takeWhile (fun c => c = '1')).length)), v)
                            :: kvs, r₄)
                   | none => none)
              | none => none)
         | _ => none)
    | _ => none

end

theorem takeWhile_ones (n : Nat) (z : List Char) :
    (List.replicate n '1' ++ '.' :: z).takeWhile (fun c => c = '1') =
      List.replicate n '1' := by
  induction n with
  | zero => simp [List.takeWhile]
  | succ k ih => simp [List.replicate_succ, List.takeWhile, ih]

theorem string_mk_toList (s : String) : String.mk s.toList = s := by
  cases s
  rfl

theorem needV_pos : ∀ v : Json, 1 ≤ needV v := by
  intro v
  cases v <;> simp [needV]

theorem needVList_pos : ∀ xs : List Json, 1 ≤ needVList xs := by
  intro xs
  cases xs with
  | nil => simp [needVList]
  | cons x xs => simp [needVList]; have := needV_pos x; omega

theorem needVObj_pos : ∀ kvs : List (String × Json), 1 ≤ needVObj kvs := by
  intro kvs
  cases kvs with
  | nil => simp [needVObj]
  | cons kv kvs =>
      obtain ⟨k, v⟩ := kv
      simp [needVObj]
      have := needV_pos v
      omega

theorem drop_replicate {α : Type} (n : Nat) (a : α) (t : List α) :
    (List.replicate n a ++ t).drop n = t := by
  have h := List.drop_left (List.replicate n a) t
  rwa [List.length_replicate] at h

mutual

theorem rtV : (v : Json) → ∀ (rest : List Char) (fuel : Nat),
    needV v ≤ fuel → decV fuel (encV v ++ rest) = some (v, rest)
  | Json.null => by
      intro rest fuel h
      cases fuel with
      | zero => simp [needV] at h
      | succ f => rfl
  | Json.bool true => by
      intro rest fuel h
      cases fuel with
      | zero => simp [needV] at h
      | succ f => rfl
  | Json.bool false => by
      intro rest fuel h
      cases fuel with
      | zero => simp [needV] at h
      | succ f => rfl
  | Json.num i => by
      intro rest fuel h
      cases fuel with
      | zero => simp [needV] at h
      | succ f =>
        by_cases hi : i < 0
        · rw [show encV (Json.num i) = 'm' :: (List.replicate i.natAbs '1' ++ ['.'])
              from by simp [encV, hi]]
          simp only [List.cons_append, List.append_assoc, List.singleton_append]
          simp only [decV, takeWhile_ones, List.length_replicate, drop_replicate]
          have h₂ : -((i.natAbs : Int)) = i := by omega
          rw [h₂, List.nil_append]
        · rw [show encV (Json.num i) = 'p' :: (List.replicate i.natAbs '1' ++ ['.'])
              from by simp [encV, hi]]
          simp only [List.cons_append, List.append_assoc, List.singleton_append]
          simp only [decV, takeWhile_ones, List.length_replicate, drop_replicate]
          have h₂ : ((i.natAbs : Int)) = i := by omega
          rw [h₂, List.nil_append]
  | Json.str s => by
      intro rest fuel h
      cases fuel with
      | zero => simp [needV] at h
      | succ f =>
        show decV (f + 1)
          (('s' :: (List.replicate s.toList.length '1' ++ '.' :: s.toList)) ++ rest) = _
        simp only [List.cons_append, List.append_assoc]
        simp only [decV, takeWhile_ones, List.length_replicate, drop_replicate,
          List.take_left, List.drop_left, string_mk_toList]
  | Json.arr xs => by
      intro rest fuel h
      cases fuel with
      | zero => have := needVList_pos xs; simp [needV] at h
      | succ f =>
        have hf : needVList xs ≤ f := by simp [needV] at h; omega
        show decV (f + 1) (('[' :: encVList xs) ++ rest) = _
        rw [List.cons_append]
        simp only [decV, rtL xs rest f hf]
  | Json.obj kvs => by
      intro rest fuel h
      cases fuel with
      | zero => have := needVObj_pos kvs; simp [needV] at h
      | succ f =>
        have hf : needVObj kvs ≤ f := by simp [needV] at h; omega
        show decV (f + 1) (('(' :: encVObj kvs) ++ rest) = _
        rw [List.cons_append]
        simp only [decV, rtO kvs rest f hf]

theorem rtL : (xs : List Json) → ∀ (rest : List Char) (fuel : Nat),
    needVList xs ≤ fuel → decVList fuel (encVList xs ++ rest) = some (xs, rest)
  | [] => by
      intro rest fuel h
      cases fuel with
      | zero => simp [needVList] at h
      | succ f => rfl
  | x :: xs => by
      intro rest fuel h
      have h₁ := needV_pos x
      have h₂ := needVList_pos xs
      cases fuel with
      | zero => simp [needVList] at h; omega
      | succ f =>
        have hx : needV x ≤ f := by simp [needVList] at h; omega
        have hxs : needVList xs ≤ f := by simp [needVList] at h; omega
        show decVList (f + 1) ((',' :: (encV x ++ encVList xs)) ++ rest) = _
        rw [List.cons_append, List.append_assoc]
        simp only [decVList, rtV x (encVList xs ++ rest) f hx, rtL xs rest f hxs]

theorem rtO : (kvs : List (String × Json)) → ∀ (rest : List Char) (fuel : Nat),
    needVObj kvs ≤ fuel → decVObj fuel (encVObj kvs ++ rest) = some (kvs, rest)
  | [] => by
      intro rest fuel h
      cases fuel with
      | zero => simp [needVObj] at h
      | succ f => rfl
  | (k, v) :: kvs => by
      intro rest fuel h
      have h₁ := needV_pos v
      have h₂ := needVObj_pos kvs
      cases fuel with
      | zero => simp [needVObj] at h; omega
      | succ f =>
        have hv : needV v ≤ f := by simp [needVObj] at h; omega
        have hkvs : needVObj kvs ≤ f := by simp [needVObj] at h; omega
        show decVObj (f + 1)
          (('k' :: (List.replicate k.toList.length '1' ++ '.' :: k.toList
             ++ (encV v ++ encVObj kvs))) ++ rest) = _
        simp only [List.cons_append, List.append_assoc]
        simp only [decVObj, takeWhile_ones, List.length_replicate,
          drop_replicate, List.take_left, List.drop_left, string_mk_toList,
          rtV v (encVObj kvs ++ rest) f hv, rtO kvs rest f hkvs]

end

mutual

theorem decV_bound : (fuel : Nat) → ∀ (l : List Char) (v : Json) (r : List Char),
    decV fuel l = some (v, r) →
      checkLong l.length v = false ∧ r.length ≤ l.length
  | 0 => by intro l v r h; simp [decV] at h
  | fuel + 1 => by
      intro l v r h
      simp only [decV] at h
      split at h
      · rw [Option.some.injEq, Prod.mk.injEq] at h
        obtain ⟨rfl, rfl⟩ := h
        exact ⟨rfl, by simp⟩
      · rw [Option.some.injEq, Prod.mk.injEq] at h
        obtain ⟨rfl, rfl⟩ := h
        exact ⟨rfl, by simp⟩
      · rw [Option.some.injEq, Prod.mk.injEq] at h
        obtain ⟨rfl, rfl⟩ := h
        exact ⟨rfl, by simp⟩
      · -- 'p'
        split at h
        · next rs _ r₂ heq =>
            rw [Option.some.injEq, Prod.mk.injEq] at h
            obtain ⟨rfl, rfl⟩ := h
            have hlen := congrArg List.length heq
            simp only [List.length_drop, List.length_cons] at hlen
            exact ⟨rfl, by simp only [List.length_cons]; omega⟩
        · exact absurd h (by simp)
      · -- 'm'
        split at h
        · next rs _ r₂ heq =>
            rw [Option.some.injEq, Prod.mk.injEq] at h
            obtain ⟨rfl, rfl⟩ := h
            have hlen := congrArg List.length heq
            simp only [List.length_drop, List.length_cons] at hlen
            exact ⟨rfl, by simp only [List.length_cons]; omega⟩
        · exact absurd h (by simp)
      · -- 's'
        split at h
        · next rs _ r₂ heq =>
            rw [Option.some.injEq, Prod.mk.injEq] at h
            obtain ⟨rfl, rfl⟩ := h
            have hlen := congrArg List.length heq
            simp only [List.length_drop, List.length_cons] at hlen
            constructor
            · simp only [checkLong, length_string_mk, List.length_take,
                decide_eq_false_iff_not, not_lt, List.length_cons]
              omega
            · simp only [List.length_drop, List.length_cons]
              omega
        · exact absurd h (by simp)
      · -- '['
        split at h
        · next xs r₂ heq =>
            rw [Option.some.injEq, Prod.mk.injEq] at h
            obtain ⟨rfl, rfl⟩ := h
            obtain ⟨hck, hle⟩ := decVList_bound fuel _ xs r₂ heq
            constructor
            · simp only [checkLong, List.length_cons]
              exact checkLongList_mono (by omega) xs hck
            · simp only [List.length_cons]
              omega
        · exact absurd h (by simp)
      · -- '('
        split at h
        · next kvs r₂ heq =>
            rw [Option.some.injEq, Prod.mk.injEq] at h
            obtain ⟨rfl, rfl⟩ := h
            obtain ⟨hck, hle⟩ := decVObj_bound fuel _ kvs r₂ heq
            constructor
            · simp only [checkLong, List.length_cons]
              exact checkLongObj_mono (by omega) kvs hck
            · simp only [List.length_cons]
              omega
        · exact absurd h (by simp)
      · exact absurd h (by simp)

theorem decVList_bound : (fuel : Nat) →
    ∀ (l : List Char) (xs : List Json) (r : List Char),
    decVList fuel l = some (xs, r) →
      checkLongList l.length xs = false ∧ r.length ≤ l.length
  | 0 => by intro l xs r h; simp [decVList] at h
  | fuel + 1 => by
      intro l xs r h
      simp only [decVList] at h
      split at h
      · rw [Option.some.injEq, Prod.mk.injEq] at h
        obtain ⟨rfl, rfl⟩ := h
        exact ⟨rfl, by simp⟩
      · -- ','
        split at h
        · next x r₂ heq =>
            split at h
            · next xs₂ r₃ heq₂ =>
                rw [Option.some.injEq, Prod.mk.injEq] at h
                obtain ⟨rfl, rfl⟩ := h
                obtain ⟨hck₁, hle₁⟩ := decV_bound fuel _ x r₂ heq
                obtain ⟨hck₂, hle₂⟩ := decVList_bound fuel r₂ xs₂ r₃ heq₂
                constructor
                · simp only [List.length_cons, checkLongList,
                    Bool.or_eq_false_iff]
                  exact ⟨checkLong_mono (by omega) x hck₁,
                    checkLongList_mono (by omega) xs₂ hck₂⟩
                · simp only [List.length_cons]
                  omega
            · exact absurd h (by simp)
        · exact absurd h (by simp)
      · exact absurd h (by simp)

theorem decVObj_bound : (fuel : Nat) →
    ∀ (l : List Char) (kvs : List (String × Json)) (r : List Char),
    decVObj fuel l = some (kvs, r) →
      checkLongObj l.length kvs = false ∧ r.length ≤ l.length
  | 0 => by intro l kvs r h; simp [decVObj] at h
  | fuel + 1 => by
      intro l kvs r h
      simp only [decVObj] at h
      split at h
      · rw [Option.some.injEq, Prod.mk.injEq] at h
        obtain ⟨rfl, rfl⟩ := h
        exact ⟨rfl, by simp⟩
      · -- 'k'
        split at h
        · next r₂ heq =>
            split at h
            · next v r₃ heq₂ =>
                split at h
                · next kvs₂ r₄ heq₃ =>
                    rw [Option.some.injEq, Prod.mk.injEq] at h
                    obtain ⟨rfl, rfl⟩ := h
                    have hlen := congrArg List.length heq
                    simp only [List.length_drop, List.length_cons] at hlen
                    obtain ⟨hck₁, hle₁⟩ := decV_bound fuel _ v r₃ heq₂
                    obtain ⟨hck₂, hle₂⟩ := decVObj_bound fuel r₃ kvs₂ r₄ heq₃
                    simp only [List.length_drop] at hck₁ hle₁
                    constructor
                    · simp only [List.length_cons, checkLongObj,
                        Bool.or_eq_false_iff]
                      exact ⟨checkLong_mono (by omega) v hck₁,
                        checkLongObj_mono (by omega) kvs₂ hck₂⟩
                    · simp only [List.length_cons]
                      omega
                · exact absurd h (by simp)
            · exact absurd h (by simp)
        · exact absurd h (by simp)
      · exact absurd h (by simp)

end

mutual

theorem needV_le : (v : Json) → needV v ≤ (encV v).length
  | Json.null => by simp [needV, encV]
  | Json.bool true => by simp [needV, encV]
  | Json.bool false => by simp [needV, encV]
  | Json.num i => by simp [needV, encV]
  | Json.str s => by simp [needV, encV]
  | Json.arr xs => by
      have := needVList_le xs
      simp only [needV, encV, List.length_cons]
      omega
  | Json.obj kvs => by
      have := needVObj_le kvs
      simp only [needV, encV, List.length_cons]
      omega

theorem needVList_le : (xs : List Json) → needVList xs ≤ (encVList xs).length
  | [] => by simp [needVList, encVList]
  | x :: xs => by
      have h₁ := needV_le x
      have h₂ := needVList_le xs
      simp only [needVList, encVList, List.length_cons, List.length_append]
      omega

theorem needVObj_le : (kvs : List (String × Json)) →
    needVObj kvs ≤ (encVObj kvs).length
  | [] => by simp [needVObj, encVObj]
  | (k, v) :: kvs => by
      have h₁ := needV_le v
      have h₂ := needVObj_le kvs
      simp only [needVObj, encVObj, List.length_cons, List.length_append]
      omega

end

/-- The verified codec, packaged on `String`. -/
def encJ (v : Json) : String := String.mk (encV v)

/-- Decoder for `encJ`; requires full consumption of the input. -/
def decJ (s : String) : Option Json :=
  match decV (s.length + 1) s.toList with
  | some (v, []) => some v
  | _ => none

/-- The codec round-trips: first codec property assumed by C6. -/
theorem decJ_encJ (v : Json) : decJ (encJ v) = some v := by
  have h := rtV v [] ((encV v).length + 1) (by have := needV_le v; omega)
  rw [List.append_nil] at h
  unfold decJ encJ
  rw [show (String.mk (encV v)).length = (encV v).length from rfl,
    show (String.mk (encV v)).toList = encV v from rfl, h]

/-- Decoded string fields are no longer than the encoded input: second codec
property assumed by C6. -/
theorem decJ_bound (s : String) (v : Json) (h : decJ s = some v) :
    checkLong s.length v = false := by
  unfold decJ at h
  split at h
  · next v₀ heq =>
      rw [Option.some.injEq] at h
      subst h
      have hb := (decV_bound (s.length + 1) s.toList v₀ [] heq).1
      rwa [show s.toList.length = s.length from rfl] at hb
  · exact absurd h (by simp)

/-- Witness for C6: the amended theorem applied with the verified codec at a
concrete input (on which the spill is a no-op). -/
theorem C6_witness :
    process_long_fields decJ encJ "/tmp/spill.json" 15000
        (Json.obj [("k", Json.str "v")]) =
      .ok (Json.obj [("k", Json.str "v")], none) := by
  have hmain := C6_spill_noop_and_idempotent decJ encJ decJ_encJ decJ_bound
      15000 "/tmp/spill.json" "/tmp/spill2.json" (by decide)
      (Json.obj [("k", Json.str "v")])
  exact hmain.1 (fun t ht => Option.noConfusion ht)
    ((by decide : checkLong 15000 (Json.obj [("k", Json.str "v")]) = false) :
      noOverlongField decJ 15000 (Json.obj [("k", Json.str "v")]))

/-! ### Tool-call router (`process_tool_call`, client.py lines 531-594) -/

/-- Generic association-list lookup (Python dict access by key). -/
def alistLookup {α : Type} (l : List (String × α)) (k : String) : Option α :=
  match l with
  | [] => none
  | (k₀, v) :: rest => if k₀ = k then some v else alistLookup rest k

/-- A cached tool descriptor (`servers[srv].tools` entry): `tool["name"]` and
`tool.get("inputSchema", {})`. -/
structure ToolDef where
  name : String
  inputSchema : Option Json

/-- An inbound tool-call record `{id, function: {name, arguments}}`;
`arguments` defaults to `"{}"` via `.get("arguments", "{}")`. -/
structure ToolCallRec where
  id : String
  name : String
  arguments : Option String

/-- A tool message `{role: "tool", tool_call_id, name, content}`. -/
structure ToolMsg where
  role : String
  tool_call_id : String
  name : String
  content : String

/-- Contiguous-sublist test on char lists (Python `t in s` on strings). -/
def listContainsSub (needle hay : List Char) : Bool :=
  match hay with
  | [] => needle.isEmpty
  | _ :: rest => List.isPrefixOf needle hay || listContainsSub needle rest

/-- Python `param in container` on JSON values: key membership for dicts,
element equality for lists, substring for strings; `int`/`bool`/`None`
containers raise `TypeError`. -/
def pyMem (k : Json) (c : Json) : Except Unit Bool :=
  match c with
  | .obj kvs =>
      .ok (match k with
           | .str s => (Json.lookup kvs s).isSome
           | _ => false)
  | .arr xs => .ok (xs.any (fun x => Json.pyEq k x))
  | .str s =>
      (match k with
       | .str t => .ok (listContainsSub t.toList s.toList)
       | _ => .error ())
  | _ => .error ()

/-- Python `str(x)` of a JSON value, as interpolated into the error message
f-string (containers, which no schema puts in `required`, are rendered
approximately). -/
def pyStrOf : Json → String
  | .str s => s
  | .num i => toString i
  | .bool true => "True"
  | .bool false => "False"
  | .null => "None"
  | v => pyDumps v

/-- Python `dict.get(k, dflt)`; `AttributeError` on a non-dict. -/
def pyGet (j : Json) (k : String) (dflt : Json) : Except Unit Json :=
  match j with
  | .obj kvs => .ok ((Json.lookup kvs k).getD dflt)
  | _ => .error ()

/-- Python `for param in required_params`: lists yield items, strings yield
characters, dicts yield keys; other values raise `TypeError`. -/
def pyIter (j : Json) : Except Unit (List Json) :=
  match j with
  | .arr xs => .ok xs
  | .str s => .ok (s.toList.map (fun c => Json.str (String.mk [c])))
  | .obj kvs => .ok (kvs.map (fun kv => Json.str kv.1))
  | _ => .error ()

/-- The `for param in required_params: if param not in func_args` loop:
the first missing required parameter (rendered with `str`), if any. -/
def firstMissing (params : List Json) (args : Json) : Except Unit (Option String) :=
  match params with
  | [] => .ok none
  | p :: rest =>
      match pyMem p args with
      | .error _ => .error ()
      | .ok true => firstMissing rest args
      | .ok false => .ok (some (pyStrOf p))

/-- The router's result: the single tool message, and the server invocation
it performed (`none` when no server was called). -/
structure RouterOut where
  msg : ToolMsg
  called : Option (String × String × Json)

/-- `process_tool_call(tc, servers, quiet_mode)` (client.py).

`callTool` is the oracle for `servers[srv].call_tool(tool, args)`; `loads`,
`dumps0` and `tmpPath` parameterize the embedded `process_long_fields`.
`.error ()` marks an uncaught Python `TypeError` (`param not in func_args`
on a non-container, a malformed cached schema, or a `TypeError` escaping the
spill). -/
def process_tool_call
    (loads : String → Option Json) (dumps0 : Json → String) (tmpPath : String)
    (callTool : String → String → Json → Json)
    (servers : List (String × List ToolDef)) (tc : ToolCallRec) :
    Except Unit RouterOut :=
  let func_args := (pyJsonLoads (tc.arguments.getD "\x7b\x7d")).getD (Json.obj [])
  match pySplitOnceUnderscore tc.name with
  | (_, none) =>
      .ok ⟨⟨"tool", tc.id, tc.name,
        pyDumps (Json.obj [("error", Json.str "Invalid function name format")])⟩,
        none⟩
  | (srv_name, some tool_name) =>
    match alistLookup servers srv_name with
    | none =>
        .ok ⟨⟨"tool", tc.id, tc.name,
          pyDumps (Json.obj [("error", Json.str ("Unknown server: " ++ srv_name))])⟩,
          none⟩
    | some tools =>
      let tool_schema : Option Json :=
        match tools.find? (fun t => t.name = tool_name) with
        | some t => some (t.inputSchema.getD (Json.obj []))
        | none => none
      let schemaCheck : Except Unit (Option String) :=
        match tool_schema with
        | some sch =>
            if Json.truthy sch then
              match pyGet sch "required" (Json.arr []) with
              | .error _ => .error ()
              | .ok req =>
                  match pyIter req with
                  | .error _ => .error ()
                  | .ok params => firstMissing params func_args
            else .ok none
        | none => .ok none
      match schemaCheck with
      | .error _ => .error ()
      | .ok (some p₀) =>
          .ok ⟨⟨"tool", tc.id, tc.name,
            pyDumps (Json.obj [("error",
              Json.str ("Missing required parameter: " ++ p₀))])⟩,
            none⟩
      | .ok none =>
          match process_long_fields loads dumps0 tmpPath 15000
              (callTool srv_name tool_name func_args) with
          | .error _ => .error ()
          | .ok (processed, _) =>
              .ok ⟨⟨"tool", tc.id, tc.name, pyDumps processed⟩,
                some (srv_name, tool_name, func_args)⟩

/-- `firstMissing` never raises when the parsed arguments are a dict. -/
theorem firstMissing_obj (params : List Json) (kvs : List (String × Json)) :
    ∃ o, firstMissing params (Json.obj kvs) = .ok o := by
  induction params with
  | nil => exact ⟨none, rfl⟩
  | cons p rest ih =>
      simp only [firstMissing, pyMem]
      cases hp : (match p with
          | Json.str s => (Json.lookup kvs s).isSome
          | _ => false) with
      | true => simpa using ih
      | false => exact ⟨some (pyStrOf p), rfl⟩

/-- On a string-valued `required` list and dict arguments, the loop finds
exactly the first name that is not an argument key. -/
theorem firstMissing_strs (ps : List String) (kvs : List (String × Json)) :
    firstMissing (ps.map Json.str) (Json.obj kvs) =
      .ok (ps.find? (fun q => (Json.lookup kvs q).isNone)) := by
  induction ps with
  | nil => rfl
  | cons p rest ih =>
      simp only [List.map_cons, firstMissing, pyMem, List.find?]
      cases hlk : Json.lookup kvs p with
      | some v =>
          rw [show (some v).isSome = true from rfl,
            show (some v).isNone = false from rfl]
          simpa using ih
      | none =>
          rw [show (Option.none (α := Json)).isSome = false from rfl,
            show (Option.none (α := Json)).isNone = true from rfl]
          rfl

/-- Every successful router output carries the inbound call's id as its
`tool_call_id` (it also always has role `"tool"` and the inbound name). -/
theorem router_ok_id (loads : String → Option Json) (dumps0 : Json → String)
    (tmpPath : String) (callTool : String → String → Json → Json)
    (servers : List (String × List ToolDef)) (tc : ToolCallRec)
    (out : RouterOut)
    (h : process_tool_call loads dumps0 tmpPath callTool servers tc = .ok out) :
    out.msg.tool_call_id = tc.id ∧ out.msg.role = "tool" ∧
      out.msg.name = tc.name := by
  simp only [process_tool_call] at h
  split at h
  · rw [Except.ok.injEq] at h
    subst h
    exact ⟨rfl, rfl, rfl⟩
  · split at h
    · rw [Except.ok.injEq] at h
      subst h
      exact ⟨rfl, rfl, rfl⟩
    · split at h
      · exact absurd h (by simp)
      · rw [Except.ok.injEq] at h
        subst h
        exact ⟨rfl, rfl, rfl⟩
      · split at h
        · exact absurd h (by simp)
        · rw [Except.ok.injEq] at h
          subst h
          exact ⟨rfl, rfl, rfl⟩

/-- A successful `alistLookup` is list membership. -/
theorem alistLookup_mem {α : Type} (l : List (String × α)) (k : String) (v : α)
    (h : alistLookup l k = some v) : (k, v) ∈ l := by
  induction l with
  | nil => simp [alistLookup] at h
  | cons q rest ih =>
      obtain ⟨qk, qv⟩ := q
      by_cases hq : qk = k
      · subst hq
        simp [alistLookup] at h
        simp [h]
      · simp [alistLookup, hq] at h
        exact List.mem_cons_of_mem _ (ih h)

/-- C1 counterexample: the claim "the router returns exactly one tool message
on every path" fails when the arguments parse to a non-container: with
`arguments = "5"` and a cached schema carrying a required parameter, Python's
`param not in func_args` raises `TypeError` (`argument of type 'int' is not
iterable`), so no tool message is returned at all. -/
theorem C1_counterexample :
    process_tool_call (fun _ => none) (fun _ => "") "/tmp/spill.json"
        (fun _ _ _ => Json.null)
        [("srv", [⟨"echo", some (Json.obj [("type", Json.str "object"),
            ("properties", Json.obj []),
            ("required", Json.arr [Json.str "msg"])])⟩])]
        ⟨"c1", "srv_echo", some "5"⟩ = .error () := rfl

/-- C1 (amended): for every inbound tool call whose `arguments` string parses
to a JSON dict (or fails to parse, substituting `{}`), with well-formed
cached schemas and spill-safe tool results, `process_tool_call` raises no
exception and returns exactly one tool message, always carrying the call's
id as `tool_call_id`; and when the named tool's cached schema is non-empty
with `required` names `ps` of which `p₀` is the first missing from the
parsed arguments, the content is
`{"error": "Missing required parameter: <p₀>"}` and `call_tool` is not
invoked. -/
theorem C1_router_message_and_missing_param
    (loads : String → Option Json) (dumps0 : Json → String) (tmpPath : String)
    (callTool : String → String → Json → Json)
    (servers : List (String × List ToolDef)) (tc : ToolCallRec)
    (hargs : ∃ kvs,
        (pyJsonLoads (tc.arguments.getD "\x7b\x7d")).getD (Json.obj []) =
          Json.obj kvs)
    (hschema : ∀ p ∈ servers, ∀ td ∈ p.2,
        ∃ skvs, td.inputSchema.getD (Json.obj []) = Json.obj skvs ∧
          (match Json.lookup skvs "required" with
           | some (Json.num _) => False
           | some (Json.bool _) => False
           | some Json.null => False
           | _ => True))
    (hspill : ∀ srv tool args,
        process_long_fields loads dumps0 tmpPath 15000
          (callTool srv tool args) ≠ .error ()) :
    (process_tool_call loads dumps0 tmpPath callTool servers tc ≠
        .error () ∧
     ∀ out, process_tool_call loads dumps0 tmpPath callTool servers tc =
        .ok out → out.msg.tool_call_id = tc.id) ∧
    (∀ (srv tool : String) (tools : List ToolDef) (td : ToolDef)
        (skvs argkvs : List (String × Json)) (ps : List String) (p₀ : String),
        pySplitOnceUnderscore tc.name = (srv, some tool) →
        alistLookup servers srv = some tools →
        tools.find? (fun t => t.name = tool) = some td →
        td.inputSchema.getD (Json.obj []) = Json.obj skvs →
        skvs ≠ [] →
        Json.lookup skvs "required" = some (Json.arr (ps.map Json.str)) →
        (pyJsonLoads (tc.arguments.getD "\x7b\x7d")).getD (Json.obj []) =
          Json.obj argkvs →
        ps.find? (fun q => (Json.lookup argkvs q).isNone) = some p₀ →
        process_tool_call loads dumps0 tmpPath callTool servers tc =
          .ok ⟨⟨"tool", tc.id, tc.name,
            pyDumps (Json.obj [("error",
              Json.str ("Missing required parameter: " ++ p₀))])⟩, none⟩) := by
  obtain ⟨argkvs, hargskvs⟩ := hargs
  constructor
  · refine ⟨?_, fun out h => (router_ok_id _ _ _ _ _ _ _ h).1⟩
    rcases hsp : pySplitOnceUnderscore tc.name with ⟨srv, otool⟩
    cases otool with
    | none => simp [process_tool_call, hsp]
    | some tool =>
      cases hsv : alistLookup servers srv with
      | none => simp [process_tool_call, hsp, hsv]
      | some tools =>
        cases hfd : tools.find? (fun t => t.name = tool) with
        | none =>
            cases hpl : process_long_fields loads dumps0 tmpPath 15000
                (callTool srv tool ((pyJsonLoads
                  (tc.arguments.getD "\x7b\x7d")).getD (Json.obj []))) with
            | error e => exact absurd hpl (by cases e; exact hspill _ _ _)
            | ok pr => simp [process_tool_call, hsp, hsv, hfd, hpl]
        | some td =>
            have htools : (srv, tools) ∈ servers :=
              alistLookup_mem servers srv tools hsv
            have htd : td ∈ tools := List.mem_of_find?_eq_some hfd
            obtain ⟨skvs, hsk, hreq⟩ := hschema _ htools _ htd
            by_cases htr : Json.truthy (Json.obj skvs) = true
            · cases hlk : Json.lookup skvs "required" with
              | none =>
                  cases hpl : process_long_fields loads dumps0 tmpPath 15000
                      (callTool srv tool ((pyJsonLoads
                        (tc.arguments.getD "\x7b\x7d")).getD (Json.obj []))) with
                  | error e => exact absurd hpl (by cases e; exact hspill _ _ _)
                  | ok pr =>
                      simp [process_tool_call, hsp, hsv, hfd, hsk, htr,
                        pyGet, hlk, pyIter, firstMissing, hpl]
              | some req =>
                  rw [hlk] at hreq
                  have hiter : ∃ params, pyIter req = .ok params := by
                    cases req with
                    | arr xs => exact ⟨xs, rfl⟩
                    | str s => exact ⟨_, rfl⟩
                    | obj o => exact ⟨_, rfl⟩
                    | num i => exact absurd hreq (by simp)
                    | bool b => exact absurd hreq (by simp)
                    | null => exact absurd hreq (by simp)
                  obtain ⟨params, hparams⟩ := hiter
                  obtain ⟨o, ho⟩ := firstMissing_obj params argkvs
                  cases o with
                  | some p₀ =>
                      simp [process_tool_call, hsp, hsv, hfd, hsk, htr,
                        pyGet, hlk, hparams, hargskvs, ho]
                  | none =>
                      cases hpl : process_long_fields loads dumps0 tmpPath 15000
                          (callTool srv tool (Json.obj argkvs)) with
                      | error e => exact absurd hpl (by cases e; exact hspill _ _ _)
                      | ok pr =>
                          simp [process_tool_call, hsp, hsv, hfd, hsk, htr,
                            pyGet, hlk, hparams, hargskvs, ho, hpl]
            · cases hpl : process_long_fields loads dumps0 tmpPath 15000
                  (callTool srv tool ((pyJsonLoads
                    (tc.arguments.getD "\x7b\x7d")).getD (Json.obj []))) with
              | error e => exact absurd hpl (by cases e; exact hspill _ _ _)
              | ok pr =>
                  simp [process_tool_call, hsp, hsv, hfd, hsk, htr, hpl]
  · intro srv tool tools td skvs argkvs₂ ps p₀ hsp hsv hfd hsk hne hlk hargs₂
      hfind
    have htr : Json.truthy (Json.obj skvs) = true := by
      simpa [Json.truthy, List.isEmpty_iff] using hne
    have hfm := firstMissing_strs ps argkvs₂
    rw [hfind] at hfm
    simp [process_tool_call, hsp, hsv, hfd, hsk, htr, pyGet, hlk, pyIter,
      hargs₂, hfm]

/-- Witness for C1: the spec's S3 scenario — `arguments = "{}"` against
`srv_echo` whose schema requires `msg` — yields the missing-parameter
message, and no server is invoked. -/
theorem C1_witness :
    process_tool_call (fun _ => none) (fun _ => "") "/tmp/spill.json"
        (fun _ _ _ => Json.null)
        [("srv", [⟨"echo", some (Json.obj [("type", Json.str "object"),
            ("properties", Json.obj []),
            ("required", Json.arr [Json.str "msg"])])⟩])]
        ⟨"c1", "srv_echo", some "\x7b\x7d"⟩ =
      .ok ⟨⟨"tool", "c1", "srv_echo",
        pyDumps (Json.obj [("error",
          Json.str ("Missing required parameter: " ++ "msg"))])⟩, none⟩ :=
  (C1_router_message_and_missing_param (fun _ => none) (fun _ => "")
      "/tmp/spill.json" (fun _ _ _ => Json.null)
      [("srv", [⟨"echo", some (Json.obj [("type", Json.str "object"),
          ("properties", Json.obj []),
          ("required", Json.arr [Json.str "msg"])])⟩])]
      ⟨"c1", "srv_echo", some "\x7b\x7d"⟩
      ⟨[], rfl⟩
      (by
        intro p hp td htd
        simp only [List.mem_singleton] at hp
        subst hp
        simp only [List.mem_singleton] at htd
        subst htd
        exact ⟨[("type", Json.str "object"), ("properties", Json.obj []),
          ("required", Json.arr [Json.str "msg"])], rfl, trivial⟩)
      (fun srv tool args h => Except.noConfusion h)).2
    "srv" "echo"
    [⟨"echo", some (Json.obj [("type", Json.str "object"),
        ("properties", Json.obj []),
        ("required", Json.arr [Json.str "msg"])])⟩]
    ⟨"echo", some (Json.obj [("type", Json.str "object"),
        ("properties", Json.obj []),
        ("required", Json.arr [Json.str "msg"])])⟩
    [("type", Json.str "object"), ("properties", Json.obj []),
        ("required", Json.arr [Json.str "msg"])]
    [] ["msg"] "msg"
    rfl rfl rfl rfl (by simp) rfl rfl rfl

/-! ### `MCPAgent._initialize`: model choice, server startup, seeding
(client.py lines 647-786) -/

/-- A provider-config model record; absent keys are `none`, and `default`
models the truthiness of `m.get("default")`. -/
structure ModelRec where
  model : Option String
  title : Option String
  default : Bool
  systemMessage : Option String
  systemMessageFile : Option String
  systemMessageFiles : Option (List String)

/-- Step 2 of `_initialize` ("Choose a model"): with a requested name, first
exact match on `model` or `title`, else first `default`; with no requested
name, first `default`, else the first record. -/
def chooseModel (model_name : Option String) (models_cfg : List ModelRec) :
    Option ModelRec :=
  match model_name with
  | some name =>
      (match models_cfg.find?
          (fun m => m.model == some name || m.title == some name) with
       | some m => some m
       | none => models_cfg.find? (fun m => m.default))
  | none =>
      (match models_cfg.find? (fun m => m.default) with
       | some m => some m
       | none => models_cfg.head?)

/-- The model-selection outcome surfaced by `_initialize`: the chosen record,
or the error message when none fits. -/
def chooseModelResult (model_name : Option String)
    (models_cfg : List ModelRec) : Except String ModelRec :=
  match chooseModel model_name models_cfg with
  | some m => .ok m
  | none => .error "No suitable model found in provider_config."

/-- A server-config entry: the fields of `servers_cfg[name]` that decide
whether the entry yields a client. -/
structure ServerConf where
  disabled : Bool
  transport : Option String
  url : Option String

/-- Step 3 of `_initialize` ("Start servers"): the names that end up in
`self.servers`, in order.  Disabled entries are skipped; an SSE-selected
entry without a URL is skipped with a warning; `startOk` is the oracle for
`client.start()`, and failed starts are skipped. -/
def startServers (servers_cfg : List (String × ServerConf))
    (startOk : String → Bool) : List String :=
  match servers_cfg with
  | [] => []
  | (name, conf) :: rest =>
      if conf.disabled then startServers rest startOk
      else
        if (conf.transport.getD "stdio" = "sse" ∨
            (conf.url.isSome ∧ conf.transport.getD "stdio" ≠ "stdio")) ∧
            conf.url = none then
          startServers rest startOk
        else if startOk name then name :: startServers rest startOk
        else startServers rest startOk

/-- The sentinel check after the loop: `if not self.servers: return
"No MCP servers could be started."`. -/
def initServersResult (servers_cfg : List (String × ServerConf))
    (startOk : String → Bool) : Except String (List String) :=
  let servers := startServers servers_cfg startOk
  if servers.isEmpty then .error "No MCP servers could be started."
  else .ok servers

/-- Step 4 of `_initialize` ("Build conversation"): the seeded system
messages, as (role, content) pairs.  `fs` is the file-read oracle (`none`
models an unreadable file). -/
def seedConversation (m : ModelRec) (fs : String → Option String) :
    List (String × String) :=
  let dflt := "You are a helpful assistant."
  let base : List (String × String) :=
    match m.systemMessageFile with
    | some path =>
        (match fs path with
         | some _ => []
         | none => [("system", m.systemMessage.getD dflt)])
    | none => [("system", m.systemMessage.getD dflt)]
  base ++
    (match m.systemMessageFiles with
     | some files =>
         files.filterMap (fun f =>
           match fs f with
           | some content => some ("system", "File: " ++ f ++ "\n" ++ content)
           | none => none)
     | none => [])

/-- C2 counterexample: with requested name `"b"`, a single record
`{model: "a"}` (no default), selection errors out — the first record is NOT
chosen, contrary to the claim's fallback order. -/
theorem C2_counterexample :
    chooseModel (some "b") [⟨some "a", none, false, none, none, none⟩] =
      none ∧
    chooseModelResult (some "b") [⟨some "a", none, false, none, none, none⟩] =
      .error "No suitable model found in provider_config." ∧
    ([⟨some "a", none, false, none, none, none⟩] : List ModelRec) ≠ [] :=
  ⟨rfl, rfl, by simp⟩

/-- C2 (amended): with a requested name the order is exact match on `model`
or `title`, else the first `default:true` record, else an error — the
first-record fallback applies only when no name is requested (then: first
`default`, else the first record, else an error). -/
theorem C2_model_selection_order :
    (∀ (name : String) (models : List ModelRec) (m : ModelRec),
        models.find? (fun r => r.model == some name || r.title == some name) =
          some m →
        chooseModel (some name) models = some m) ∧
    (∀ (name : String) (models : List ModelRec) (m : ModelRec),
        models.find? (fun r => r.model == some name || r.title == some name) =
          none →
        models.find? (fun r => r.default) = some m →
        chooseModel (some name) models = some m) ∧
    (∀ (name : String) (models : List ModelRec),
        models.find? (fun r => r.model == some name || r.title == some name) =
          none →
        models.find? (fun r => r.default) = none →
        chooseModelResult (some name) models =
          .error "No suitable model found in provider_config.") ∧
    (∀ (models : List ModelRec) (m : ModelRec),
        models.find? (fun r => r.default) = some m →
        chooseModel none models = some m) ∧
    (∀ (models : List ModelRec),
        models.find? (fun r => r.default) = none →
        chooseModel none models = models.head?) := by
  refine ⟨?_, ?_, ?_, ?_, ?_⟩
  · intro name models m h
    simp [chooseModel, h]
  · intro name models m h₁ h₂
    simp [chooseModel, h₁, h₂]
  · intro name models h₁ h₂
    simp [chooseModelResult, chooseModel, h₁, h₂]
  · intro models m h
    simp [chooseModel, h]
  · intro models h
    simp [chooseModel, h]

/-- Witness for C2: both orders at concrete configs — a requested name with
no match and no default errors; with no requested name the first record is
chosen. -/
theorem C2_witness :
    chooseModelResult (some "gpt-9")
        [⟨some "gpt-4o", some "main", false, none, none, none⟩] =
      .error "No suitable model found in provider_config." ∧
    chooseModel none
        [⟨some "gpt-4o", some "main", false, none, none, none⟩] =
      some ⟨some "gpt-4o", some "main", false, none, none, none⟩ := by
  constructor
  · exact C2_model_selection_order.2.2.1 "gpt-9"
      [⟨some "gpt-4o", some "main", false, none, none, none⟩] rfl rfl
  · exact C2_model_selection_order.2.2.2.2
      [⟨some "gpt-4o", some "main", false, none, none, none⟩] rfl

/-- C3 counterexample: a non-empty config whose only entry is disabled makes
the loop yield zero servers, and `_initialize` DOES return the
`"No MCP servers could be started."` sentinel, contrary to the claim. -/
theorem C3_counterexample :
    initServersResult [("a", ⟨true, none, none⟩)] (fun _ => true) =
      .error "No MCP servers could be started." ∧
    ([("a", (⟨true, none, none⟩ : ServerConf))] ≠ []) :=
  ⟨rfl, by simp⟩

/-- C3 (amended): when the server config is non-empty but every entry is
disabled, the startup loop skips all of them, zero clients start, and
`_initialize` returns the `"No MCP servers could be started."` error
sentinel (the model is never consulted on this path). -/
theorem C3_all_disabled_yields_sentinel
    (servers_cfg : List (String × ServerConf)) (startOk : String → Bool)
    (hne : servers_cfg ≠ [])
    (hdis : ∀ e ∈ servers_cfg, e.2.disabled = true) :
    startServers servers_cfg startOk = [] ∧
    initServersResult servers_cfg startOk =
      .error "No MCP servers could be started." := by
  have hempty : startServers servers_cfg startOk = [] := by
    clear hne
    induction servers_cfg with
    | nil => rfl
    | cons e rest ih =>
        obtain ⟨name, conf⟩ := e
        have hc : conf.disabled = true := hdis (name, conf) (by simp)
        simp only [startServers, hc, if_true]
        exact ih (fun q hq => hdis q (List.mem_cons_of_mem _ hq))
  refine ⟨hempty, ?_⟩
  simp [initServersResult, hempty]

/-- Witness for C3: the one-disabled-server config from the spec's S1
scenario. -/
theorem C3_witness :
    startServers [("srv", ⟨true, none, none⟩)] (fun _ => true) = [] ∧
    initServersResult [("srv", ⟨true, none, none⟩)] (fun _ => true) =
      .error "No MCP servers could be started." :=
  C3_all_disabled_yields_sentinel [("srv", ⟨true, none, none⟩)] (fun _ => true)
    (by simp) (by intro e he; simp at he; rw [he])

/-- C4: with `systemMessageFile` present and readable, the seeding appends NO
system message at all — the read contents are assigned to a local and
dropped, the fallback append lives only in the `except` branch.  Evaluated
at the failing input. -/
theorem C4_systemMessageFile_dropped :
    seedConversation ⟨none, none, false, none, some "sys.txt", none⟩
        (fun p => if p = "sys.txt" then some "Be terse." else none) = [] ∧
    seedConversation ⟨none, none, false, none, some "sys.txt", none⟩
        (fun _ => none) =
      [("system", "You are a helpful assistant.")] :=
  ⟨rfl, rfl⟩

/-! ### Streaming tool-call assembly
(`generate_with_openai_stream`, providers/openai.py lines 55-133) -/

/-- One streamed tool-call delta (`delta.tool_calls[i]`): the index plus the
optional `id`/`name`/`arguments` fragments. -/
structure ToolCallDelta where
  index : Nat
  id : Option String
  name : Option String
  args : Option String

/-- One accumulator entry (`current_tool_calls[index]`). -/
structure ToolAcc where
  id : String
  name : String
  args : String

/-- Python `str.startswith` (string evaluation by list structure). -/
def pyStartsWith (s p : String) : Bool := List.isPrefixOf p.toList s.toList

/-- Python `str.endswith`. -/
def pyEndsWith (s p : String) : Bool :=
  List.isPrefixOf p.toList.reverse s.toList.reverse

/-- Python truthiness of an optional string field (absent or `""` is falsy). -/
def strTruthy : Option String → Option String
  | some s => if s = "" then none else some s
  | none => none

/-- The `arguments` accumulation special cases: a fragment starting with `{`
replaces an empty accumulator; a fragment ending with `}` is appended only
when the accumulator does not already end with `}` (else silently dropped);
otherwise fragments are appended. -/
def accArgs (cur new : String) : String :=
  if pyStartsWith new "\x7b" ∧ cur = "" then new
  else if pyEndsWith new "\x7d" ∧ cur ≠ "" then
    (if ¬ pyEndsWith cur "\x7d" then cur ++ new else cur)
  else cur ++ new

/-- `while tool_call.index >= len(current_tool_calls): append empty entry`. -/
def extendTo (acc : List ToolAcc) (idx : Nat) : List ToolAcc :=
  acc ++ List.replicate (idx + 1 - acc.length) ⟨"", "", ""⟩

/-- In-place update of the entry at an index. -/
def updAt (l : List ToolAcc) (i : Nat) (f : ToolAcc → ToolAcc) : List ToolAcc :=
  match l, i with
  | [], _ => []
  | x :: xs, 0 => f x :: xs
  | x :: xs, n + 1 => x :: updAt xs n f

/-- Processing of one tool-call delta: extend, then update id (replace),
name (concatenate) and arguments (`accArgs`). -/
def applyDelta (acc : List ToolAcc) (d : ToolCallDelta) : List ToolAcc :=
  updAt (extendTo acc d.index) d.index (fun cur₀ =>
    let cur₁ := match strTruthy d.id with
                | some i => { cur₀ with id := i }
                | none => cur₀
    let cur₂ := match strTruthy d.name with
                | some n => { cur₁ with name := cur₁.name ++ n }
                | none => cur₁
    match strTruthy d.args with
    | some a => { cur₂ with args := accArgs cur₂.args a }
    | none => cur₂)

/-- The whole accumulation over the streamed deltas. -/
def accumulate (ds : List ToolCallDelta) : List ToolAcc :=
  ds.foldl applyDelta []

/-- The best-effort repair pass on malformed accumulated arguments: strip,
trim trailing commas, ensure a leading `{` and a trailing `}`. -/
def repairArgs (raw : String) : String :=
  let a₁ := pyRstripComma (pyStrip raw)
  let a₂ := if ¬ pyStartsWith a₁ "\x7b" then "\x7b" ++ a₁ else a₁
  if ¬ pyEndsWith a₂ "\x7d" then a₂ ++ "\x7d" else a₂

/-- Argument finalization at the finish chunk: strip; empty becomes `"{}"`;
parse-and-reserialize; on failure repair and retry; on failure `"{}"`. -/
def finalizeArgs (raw : String) : String :=
  match pyJsonLoads (if pyStrip raw = "" then "\x7b\x7d" else pyStrip raw) with
  | some v => pyDumps v
  | none =>
      (match pyJsonLoads (repairArgs raw) with
       | some v => pyDumps v
       | none => "\x7b\x7d")

/-- The final chunk delivers the accumulated calls that have both an id and a
name, with finalized arguments. -/
def finalizeToolCalls (acc : List ToolAcc) : List ToolAcc :=
  acc.filterMap (fun tc =>
    if tc.id ≠ "" ∧ tc.name ≠ "" then
      some { tc with args := finalizeArgs tc.args }
    else none)

/-- Whatever the input, `finalizeArgs` returns the serialization of some
JSON value. -/
theorem finalizeArgs_dumps (raw : String) :
    ∃ v, finalizeArgs raw = pyDumps v := by
  unfold finalizeArgs
  cases h₁ : pyJsonLoads (if pyStrip raw = "" then "\x7b\x7d" else pyStrip raw) with
  | some v => exact ⟨v, rfl⟩
  | none =>
      cases h₂ : pyJsonLoads (repairArgs raw) with
      | some v => exact ⟨v, rfl⟩
      | none => exact ⟨Json.obj [], rfl⟩

/-- C8 counterexample: the fragment sequence `["[1]"]` accumulates and is
delivered with `arguments = "[1]"`, which parses as a JSON array — not a
JSON object — refuting "parses as a JSON object". -/
theorem C8_counterexample :
    finalizeToolCalls (accumulate [⟨0, some "c1", some "f", some "[1]"⟩]) =
      [⟨"c1", "f", "[1]"⟩] ∧
    pyJsonLoads "[1]" = some (Json.arr [Json.num 1]) ∧
    (∀ kvs, Json.arr [Json.num 1] ≠ Json.obj kvs) :=
  ⟨rfl, rfl, fun kvs h => by cases h⟩

/-- C8 (amended): for every sequence of streamed tool-call fragments, the
`arguments` string of every call delivered in the final chunk is
`json.dumps` of some JSON value (valid JSON, though not necessarily an
object): an empty or whitespace accumulation yields `"{}"`; a failed parse
undergoes one repair pass (trailing commas trimmed, surrounding braces
ensured); if the repair still fails to parse, `"{}"` is substituted. -/
theorem C8_final_arguments_valid_json (ds : List ToolCallDelta) :
    (∀ tc ∈ finalizeToolCalls (accumulate ds), ∃ v, tc.args = pyDumps v) ∧
    (∀ raw, pyStrip raw = "" → finalizeArgs raw = "\x7b\x7d") ∧
    (∀ raw, pyStrip raw ≠ "" → pyJsonLoads (pyStrip raw) = none →
        pyJsonLoads (repairArgs raw) = none → finalizeArgs raw = "\x7b\x7d") := by
  refine ⟨?_, ?_, ?_⟩
  · intro tc htc
    unfold finalizeToolCalls at htc
    rw [List.mem_filterMap] at htc
    obtain ⟨a, _, ha⟩ := htc
    by_cases hcond : a.id ≠ "" ∧ a.name ≠ ""
    · rw [if_pos hcond, Option.some.injEq] at ha
      obtain ⟨v, hv⟩ := finalizeArgs_dumps a.args
      exact ⟨v, by rw [← ha]; exact hv⟩
    · rw [if_neg hcond] at ha
      exact absurd ha (by simp)
  · intro raw h
    unfold finalizeArgs
    rw [h]
    rfl
  · intro raw h₁ h₂ h₃
    unfold finalizeArgs
    rw [if_neg h₁, h₂, h₃]

/-- Witness for C8: whitespace-only accumulated arguments are delivered as
`"{}"`, which is the serialization of the empty object. -/
theorem C8_witness :
    finalizeToolCalls (accumulate [⟨0, some "c1", some "f", some " "⟩]) =
      [⟨"c1", "f", "\x7b\x7d"⟩] ∧
    (∃ v, ("\x7b\x7d" : String) = pyDumps v) ∧
    finalizeArgs " " = "\x7b\x7d" := by
  refine ⟨rfl, ?_, ?_⟩
  · exact (C8_final_arguments_valid_json
        [⟨0, some "c1", some "f", some " "⟩]).1 ⟨"c1", "f", "\x7b\x7d"⟩
      (by rw [show finalizeToolCalls (accumulate
          [⟨0, some "c1", some "f", some " "⟩]) =
          [(⟨"c1", "f", "\x7b\x7d"⟩ : ToolAcc)] from rfl]
          exact List.mem_singleton.mpr rfl)
  · exact (C8_final_arguments_valid_json
        [⟨0, some "c1", some "f", some " "⟩]).2.1 " " rfl

/-! ### Reasoning engine block extraction (reasoning.py lines 222-285)

The `re.findall(r'<tag.*?>\s*(.*?)\s*</tag>', text, DOTALL | IGNORECASE)`
patterns are embedded as an explicit scanner: find the (case-insensitive)
literal `<tag`, then the first `>` after it, capture lazily up to the first
`</tag>`, trim surrounding whitespace (the `\s*` anchors), and resume after
the close tag.  Lazy matching plus left-to-right search make the regex and
this scanner agree (an open tag with no later close fails from every later
start position as well). -/

/-- Case-insensitive prefix test on char lists. -/
def ciPrefixOf : List Char → List Char → Bool
  | [], _ => true
  | _ :: _, [] => false
  | p :: ps, c :: cs => (p.toLower = c.toLower) && ciPrefixOf ps cs

/-- Scan for the first case-insensitive occurrence of `pat`, returning the
text before it and the suffix after it. -/
def takeUntilCI (pat : List Char) : List Char → Option (List Char × List Char)
  | [] => none
  | c :: cs =>
      if ciPrefixOf pat (c :: cs) then some ([], List.drop pat.length (c :: cs))
      else
        match takeUntilCI pat cs with
        | some (cap, rest) => some (c :: cap, rest)
        | none => none

/-- All non-overlapping `<tag…>…</tag>` captures, trimmed. -/
def findBlocksAux (openTag closeTag : List Char) :
    Nat → List Char → List String
  | 0, _ => []
  | fuel + 1, l =>
      match takeUntilCI openTag l with
      | none => []
      | some (_, afterOpen) =>
          match takeUntilCI ['>'] afterOpen with
          | none => []
          | some (_, afterGt) =>
              match takeUntilCI closeTag afterGt with
              | none => []
              | some (cap, rest) =>
                  pyStrip (String.mk cap) ::
                    findBlocksAux openTag closeTag fuel rest

/-- `re.findall` for one tag pair. -/
def findBlocks (tag : String) (text : String) : List String :=
  findBlocksAux ("<" ++ tag).toList ("</" ++ tag ++ ">").toList
    (text.length + 1) text.toList

/-- `extract_code_blocks` (the `textwrap.dedent` normalization of inner
indentation is inert to every claim and elided). -/
def extract_code_blocks (text : String) : List String :=
  findBlocks "python" text

/-- `extract_tool_calls`: parse each `<tool_code>` block as JSON, dropping
blocks that fail to parse. -/
def extract_tool_calls (text : String) : List Json :=
  (findBlocks "tool_code" text).filterMap pyJsonLoads

/-- `extract_final_answer`: the last `<final_answer>` block, else the last
`<ask>` block, else the last `<monitor>` block, stripped. -/
def extract_final_answer (text : String) : Option String :=
  match (findBlocks "final_answer" text).getLast? with
  | some a => some a
  | none =>
      (match (findBlocks "ask" text).getLast? with
       | some a => some a
       | none => (findBlocks "monitor" text).getLast?)

/-! ### Reasoning engine execution loop
(`MultiStepReasoner.execute_reasoning_loop`, reasoning.py lines 399-542) -/

/-- A catalogue entry of `all_functions` (built in `_initialize`). -/
structure FnDef where
  name : String
  description : String
  parameters : Json

/-- Observable effects of a reasoning run (other than the per-iteration
assistant texts, which are collected separately). -/
inductive REvent where
  | argsCall (text : String)
  | toolDispatch (tc : ToolCallRec)
  | codeExec (code : String)

/-- The oracles of the loop: `generate_func` (also used for the secondary
argument-generation call), `python_interpreter` over an abstract context
`σ`, and `process_tool_call_func` (returning the result's `content`). -/
structure ROracles (σ : Type) where
  gen : List (String × String) → String
  interp : String → σ → String × σ
  ptc : ToolCallRec → Option String

/-- `user_prompt_initial(question, answer_guideline, feedback)`. -/
def userPromptInitial (question guidelines feedback : String) : String :=
  "\nHere is the user enquiry:\n- " ++ question ++
  "\n\nHere is the guidelines:\n- " ++ guidelines ++
  "\n\nHere is the summary context and plan from human expert:\n```plan\n" ++
  feedback ++ "\n```\n"

/-- `get_reasoning_system_prompt(all_functions)`: fixed prose (opaque data to
every claim, abbreviated here) followed by the tool name/description
catalogue. -/
def reasoningSystemPrompt (fns : List FnDef) : String :=
  "You are an advanced reasoning agent that follows a structured approach " ++
  "to solve complex tasks using available tools.\n" ++
  String.join (fns.map (fun f => f.name ++ ": " ++ f.description ++ "\n"))

/-- The argument-generation prompt of `_get_tool_args_from_llm` (the schema
is rendered with `json.dumps(..., indent=2)` in the source; the embedded
serializer is the compact one — the prompt is consumed only by the model
oracle). -/
def toolArgsPrompt (tool_name : String) (fdef : FnDef) : String :=
  "You have decided to call the tool `" ++ tool_name ++ "`.\n" ++
  "Based on the conversation history, please provide the arguments for this tool.\n" ++
  "Tool Description: " ++ fdef.description ++ "\n" ++
  "Tool Schema:\n```json\n" ++ pyDumps fdef.parameters ++ "\n```\n" ++
  "Please provide *only* the JSON object for the arguments, without any other text or explanation.\n"

/-- The fenced-code extraction `re.search(r'```(json)?\s*(.*?)\s*```', …)`
applied to the model's argument text. -/
def fenceExtract (s : String) : Option String :=
  match takeUntilCI "```".toList s.toList with
  | none => none
  | some (_, after₁) =>
      let after₂ := if List.isPrefixOf "json".toList after₁ then
          List.drop 4 after₁ else after₁
      match takeUntilCI "```".toList after₂ with
      | none => none
      | some (cap, _) => some (pyStrip (String.mk cap))

/-- Parsing of the generated argument text: strip, unfence, `json.loads`,
require a dict. -/
def parsedToolArgs (raw : String) : Option (List (String × Json)) :=
  let t := match fenceExtract (pyStrip raw) with
           | some t => t
           | none => pyStrip raw
  match pyJsonLoads t with
  | some (Json.obj kvs) => some kvs
  | _ => none

/-- `_get_tool_args_from_llm`, given the raw model output: the parsed dict,
or the failure dict `{"error": …, "raw_response": …}`. -/
def toolArgsOf (raw : String) : List (String × Json) :=
  match parsedToolArgs raw with
  | some kvs => kvs
  | none =>
      [("error", Json.str "Failed to generate valid JSON arguments."),
       ("raw_response", Json.str
         (match fenceExtract (pyStrip raw) with
          | some t => t
          | none => pyStrip raw))]

/-- Processing of one extracted tool-call block inside an iteration.
`.error` marks an uncaught exception inside the iteration's `try`
(`AttributeError` on a non-dict block, a malformed `parameters` schema,
`TypeError` on a non-iterable `required` or a non-string `join`, `KeyError`
on an `error` dict without `raw_response`). -/
def processOneTC (σ : Type) (o : ROracles σ) (fns : List FnDef) (i : Nat)
    (st : List (String × String) × List REvent) (tc : Json) :
    Except String (List (String × String) × List REvent) :=
  let conv := st.1
  let evs := st.2
  match tc with
  | Json.obj kvs =>
      let tool_name := (Json.lookup kvs "name").getD Json.null
      if ¬ Json.truthy tool_name then .ok (conv, evs)
      else
        match fns.find? (fun f => Json.pyEq (Json.str f.name) tool_name) with
        | none =>
            .ok (conv ++ [("user", "<tool_output>\nError calling tool " ++
              pyStrOf tool_name ++ ": Tool not found.\n</tool_output>")], evs)
        | some fdef =>
            let tname := pyStrOf tool_name
            let argsText := o.gen (conv ++ [("user", toolArgsPrompt tname fdef)])
            let evs := evs ++ [REvent.argsCall argsText]
            let akvs := toolArgsOf argsText
            match Json.lookup akvs "error" with
            | some ev =>
                (match Json.lookup akvs "raw_response" with
                 | some rawv =>
                     .ok (conv ++ [("user", "<tool_output>\nError calling tool " ++
                       tname ++ ": " ++ pyStrOf ev ++ " Raw response: " ++
                       pyStrOf rawv ++ "\n</tool_output>")], evs)
                 | none => .error "KeyError")
            | none =>
                match pyGet fdef.parameters "required" (Json.arr []) with
                | .error _ => .error "AttributeError"
                | .ok req =>
                    match pyIter req with
                    | .error _ => .error "TypeError"
                    | .ok params =>
                        let missing := params.filter (fun p =>
                          match p with
                          | Json.str s => (Json.lookup akvs s).isNone
                          | _ => true)
                        if missing.isEmpty then
                          let fake : ToolCallRec :=
                            ⟨"call_" ++ pyReplaceDotUnderscore tname ++ "_" ++
                              toString i, tname, some (pyDumps (Json.obj akvs))⟩
                          let evs := evs ++ [REvent.toolDispatch fake]
                          match o.ptc fake with
                          | some content =>
                              .ok (conv ++ [("user", "<tool_output>\n" ++
                                content ++ "\n</tool_output>")], evs)
                          | none => .ok (conv, evs)
                        else
                          if missing.all (fun p => match p with
                              | Json.str _ => true
                              | _ => false) then
                            .ok (conv ++ [("user", "<tool_output>\nError calling tool " ++
                              tname ++ ": Missing required parameters after generation: " ++
                              String.intercalate ", " (missing.map pyStrOf) ++
                              "\n</tool_output>")], evs)
                          else .error "TypeError"
  | _ => .error "AttributeError"

/-- The `for tc_data in tool_calls` loop. -/
def processTCs (σ : Type) (o : ROracles σ) (fns : List FnDef) (i : Nat)
    (tcs : List Json) (conv : List (String × String)) (evs : List REvent) :
    Except String (List (String × String) × List REvent) :=
  match tcs with
  | [] => .ok (conv, evs)
  | tc :: rest =>
      match processOneTC σ o fns i (conv, evs) tc with
      | .error e => .error e
      | .ok (conv₂, evs₂) => processTCs σ o fns i rest conv₂ evs₂

/-- The `for code in code_blocks` loop over the persistent interpreter
context. -/
def runCodes (σ : Type) (o : ROracles σ) :
    List String → σ → List String × σ × List REvent
  | [], st => ([], st, [])
  | c :: cs, st =>
      let r := o.interp c st
      let rec₂ := runCodes σ o cs r.2
      (r.1 :: rec₂.1, rec₂.2.1, REvent.codeExec c :: rec₂.2.2)

/-- One iteration's outcome: an early return, or the next state. -/
inductive IterRes (σ : Type) where
  | ret (success : Bool) (answer : String)
  | cont (conv : List (String × String)) (st : σ)

/-- One iteration of the reasoning loop (the body of
`for i in range(self.config.max_iterations)`), given the assistant text the
model produced.  Exceptions inside the iteration's `try` become
`(False, "Error during reasoning: …")`. -/
def reasoningIteration (σ : Type) (o : ROracles σ) (enableCode : Bool)
    (fns : List FnDef) (i : Nat) (conv₀ : List (String × String)) (st : σ)
    (text : String) (evs : List REvent) : IterRes σ × List REvent :=
  let conv := conv₀ ++ [("assistant", text)]
  let tool_calls := extract_tool_calls text
  if ¬ tool_calls.isEmpty then
    match processTCs σ o fns i tool_calls conv evs with
    | .error e => (.ret false ("Error during reasoning: " ++ e), evs)
    | .ok (conv₂, evs₂) => (.cont conv₂ st, evs₂)
  else
    let code_blocks := extract_code_blocks text
    let codeRun :=
      if ¬ code_blocks.isEmpty ∧ enableCode then runCodes σ o code_blocks st
      else ([], st, [])
    let evs := evs ++ codeRun.2.2
    if ¬ codeRun.1.isEmpty then
      (.cont (conv ++ [("user", "<code_output>\n" ++
        String.intercalate "\n" codeRun.1 ++ "\n</code_output>")])
        codeRun.2.1, evs)
    else
      let conv :=
        if code_blocks.isEmpty ∧ tool_calls.isEmpty then
          conv ++ [("user", "<no_code_output>No code execution or tool calls detected</no_code_output>")]
        else conv
      let conv := conv ++ [("user",
        "\nBased on the current stage and the plan from human expert, please provide the next step or final answer.\n")]
      match extract_final_answer text with
      | some ans => (.ret true ans, evs)
      | none => (.cont conv codeRun.2.1, evs)

/-- The iteration loop, by remaining fuel; `maxIt` only feeds the
final failure message. -/
def execLoopAux (σ : Type) (o : ROracles σ) (enableCode : Bool)
    (fns : List FnDef) (maxIt : Nat) :
    Nat → Nat → List (String × String) → σ → List String → List REvent →
      (Bool × String) × List String × List REvent
  | 0, _, _, _, texts, evs =>
      ((false, "Process stopped after reaching maximum iterations (" ++
        toString maxIt ++ ")."), texts, evs)
  | rem + 1, i, conv, st, texts, evs =>
      let text := o.gen conv
      let texts := texts ++ [text]
      match reasoningIteration σ o enableCode fns i conv st text evs with
      | (.ret success ans, evs₂) => ((success, ans), texts, evs₂)
      | (.cont conv₂ st₂, evs₂) =>
          execLoopAux σ o enableCode fns maxIt rem (i + 1) conv₂ st₂ texts evs₂

/-- `execute_reasoning_loop(question, guidelines, initial_plan, …)`: build
the two seed messages, reset the interpreter context (the caller passes the
fresh `st₀`), and iterate up to `max_iterations`.  Returns the
(success, answer) pair, the per-iteration assistant texts, and the effect
events. -/
def execute_reasoning_loop (σ : Type) (o : ROracles σ) (enableCode : Bool)
    (fns : List FnDef) (question guidelines initial_plan : String)
    (isReasoning : Bool) (maxIt : Nat) (st₀ : σ) :
    (Bool × String) × List String × List REvent :=
  let conv := [((if isReasoning then "developer" else "system"),
                reasoningSystemPrompt fns),
               ("user", userPromptInitial question guidelines initial_plan)]
  execLoopAux σ o enableCode fns maxIt maxIt 0 conv st₀ [] []

/-- C5 counterexample: an assistant text carrying BOTH a parseable
`<tool_code>` block and a `<final_answer>` block does not return the final
answer: the tool path runs and the loop continues, so a one-iteration run
ends in the max-iterations failure instead of `(success, "42")`. -/
theorem C5_counterexample :
    (execute_reasoning_loop Unit
        ⟨fun _ => "<tool_code>\n\x7b\"name\": \"missing_tool\"\x7d\n</tool_code>\n<final_answer>42</final_answer>",
         fun _ st => ("", st), fun _ => none⟩
        true [] "q" "" "plan" false 1 ()).1 =
      (false, "Process stopped after reaching maximum iterations (1).") ∧
    extract_final_answer
      "<tool_code>\n\x7b\"name\": \"missing_tool\"\x7d\n</tool_code>\n<final_answer>42</final_answer>" =
      some "42" ∧
    extract_tool_calls
      "<tool_code>\n\x7b\"name\": \"missing_tool\"\x7d\n</tool_code>\n<final_answer>42</final_answer>" =
      [Json.obj [("name", Json.str "missing_tool")]] :=
  ⟨rfl, rfl, rfl⟩

/-- C5 (amended): the final-answer check is performed LAST, not first: an
iteration returns `(success, answer)` exactly when the assistant text has a
final-answer block together with no parseable `<tool_code>` block and no
executed `<python>` block; an iteration with tool-call blocks processes them
and continues (or fails on an exception), and an iteration with executed
code blocks continues — in both cases never returning the present
final-answer block. -/
theorem C5_final_answer_checked_last (σ : Type) (o : ROracles σ)
    (enableCode : Bool) (fns : List FnDef) (i : Nat)
    (conv : List (String × String)) (st : σ) (text : String)
    (evs : List REvent) :
    (∀ a, extract_final_answer text = some a →
        extract_tool_calls text = [] →
        (extract_code_blocks text = [] ∨ enableCode = false) →
        (reasoningIteration σ o enableCode fns i conv st text evs).1 =
          .ret true a) ∧
    (¬ (extract_tool_calls text).isEmpty →
        ∀ ans, (reasoningIteration σ o enableCode fns i conv st text evs).1 ≠
          .ret true ans) ∧
    (extract_tool_calls text = [] → extract_code_blocks text ≠ [] →
        enableCode = true →
        ∀ s ans,
          (reasoningIteration σ o enableCode fns i conv st text evs).1 ≠
            .ret s ans) := by
  refine ⟨?_, ?_, ?_⟩
  · intro a ha htc hcb
    have htc₂ : (extract_tool_calls text).isEmpty = true := by simp [htc]
    have hcr : (if ¬ (extract_code_blocks text).isEmpty ∧ enableCode then
        runCodes σ o (extract_code_blocks text) st
      else ([], st, [])) = ([], st, []) := by
      rcases hcb with h | h <;> simp [h]
    simp only [reasoningIteration, htc₂, Bool.not_true, if_false,
      Bool.false_eq_true, hcr, ha]
    simp
  · intro htc ans h
    have htc₂ : (extract_tool_calls text).isEmpty = false := by
      simpa using htc
    rcases hp : processTCs σ o fns i (extract_tool_calls text)
        (conv ++ [("assistant", text)]) evs with e | pr
    · simp [reasoningIteration, htc₂, hp] at h
    · simp [reasoningIteration, htc₂, hp] at h
  · intro htc hcb hen s ans h
    have htc₂ : (extract_tool_calls text).isEmpty = true := by simp [htc]
    obtain ⟨c, cs, hcs⟩ : ∃ c cs, extract_code_blocks text = c :: cs := by
      cases hh : extract_code_blocks text with
      | nil => exact absurd hh hcb
      | cons c cs => exact ⟨c, cs, rfl⟩
    have hne : (runCodes σ o (extract_code_blocks text) st).1.isEmpty = false := by
      rw [hcs]
      simp [runCodes]
    simp [reasoningIteration, htc₂, hcs, hen, hne, runCodes] at h

/-- Witness for C5: an iteration whose text is exactly one final-answer
block returns `(success, "42")`. -/
theorem C5_witness :
    (reasoningIteration Unit
        ⟨fun _ => "", fun _ st => ("", st), fun _ => none⟩
        true [] 0 [] () "<final_answer>42</final_answer>" []).1 =
      .ret true "42" :=
  (C5_final_answer_checked_last Unit
      ⟨fun _ => "", fun _ st => ("", st), fun _ => none⟩
      true [] 0 [] () "<final_answer>42</final_answer>" []).1
    "42" rfl rfl (Or.inl rfl)

/-- Well-formedness of a reasoning-catalogue entry: `parameters` is a dict
whose `required` key, when present, holds a list of strings (the JSON-schema
shape `_initialize` builds from each tool's `inputSchema`). -/
def wfFnDef (f : FnDef) : Prop :=
  ∃ skvs, f.parameters = Json.obj skvs ∧
    (Json.lookup skvs "required" = none ∨
     ∃ ps, Json.lookup skvs "required" = some (Json.arr ps) ∧
       ∀ p ∈ ps, ∃ s, p = Json.str s)

/-- A concrete benign oracle: the model always answers `"hello"`, the
interpreter returns empty output, no tool is dispatched. -/
def c9Oracle : ROracles Unit :=
  ⟨fun _ => "hello", fun _ st => ("", st), fun _ => none⟩

/-- `_get_tool_args_from_llm` cannot yield a dict carrying `error` but no
`raw_response`: the parse-failure dict carries both, and a successfully
parsed dict is constrained by the benign-generation hypothesis. -/
theorem toolArgsOf_total (raw : String) (ev : Json)
    (H : ∀ akvs, parsedToolArgs raw = some akvs →
        Json.lookup akvs "error" = none ∨
        Json.lookup akvs "raw_response" ≠ none)
    (he : Json.lookup (toolArgsOf raw) "error" = some ev)
    (hr : Json.lookup (toolArgsOf raw) "raw_response" = none) : False := by
  rcases hargs : parsedToolArgs raw with _ | akvs
  · simp [toolArgsOf, hargs, Json.lookup] at hr
  · simp only [toolArgsOf, hargs] at he hr
    rcases H akvs hargs with h₃ | h₃
    · rw [h₃] at he
      exact absurd he (by simp)
    · exact h₃ hr

/-- Under a well-formed tool catalogue and benign argument generations, one
`<tool_code>` block that parses to a JSON dict is processed by the iteration
body without raising. -/
theorem processOneTC_ok (σ : Type) (o : ROracles σ) (fns : List FnDef)
    (i : Nat) (conv : List (String × String)) (evs : List REvent)
    (kvs : List (String × Json))
    (H2 : ∀ f ∈ fns, wfFnDef f)
    (H3 : ∀ conv₂ akvs, parsedToolArgs (o.gen conv₂) = some akvs →
        Json.lookup akvs "error" = none ∨
        Json.lookup akvs "raw_response" ≠ none) :
    ∀ e, processOneTC σ o fns i (conv, evs) (Json.obj kvs) ≠ .error e := by
  intro e h
  simp only [processOneTC] at h
  split at h
  · simp at h
  · split at h
    · simp at h
    · next fdef heqfd =>
      obtain ⟨skvs, hsk, hreq⟩ := H2 fdef (List.mem_of_find?_eq_some heqfd)
      have hget : pyGet fdef.parameters "required" (Json.arr []) =
          .ok ((Json.lookup skvs "required").getD (Json.arr [])) := by
        rw [hsk]; rfl
      split at h
      · next ev heqerr =>
        split at h
        · simp at h
        · next heqraw =>
          exact toolArgsOf_total _ ev (fun akvs hx => H3 _ akvs hx) heqerr heqraw
      · split at h
        · next heqget =>
          rw [hget] at heqget
          simp at heqget
        · next req heqget =>
          rw [hget, Except.ok.injEq] at heqget
          subst heqget
          split at h
          · next heqit =>
            rcases hreq with hnone | ⟨ps, hps, hstr⟩
            · rw [hnone] at heqit
              simp [pyIter] at heqit
            · rw [hps] at heqit
              simp [pyIter] at heqit
          · next params heqit =>
            split at h
            · split at h <;> simp at h
            · next hne =>
              split at h
              · simp at h
              · next hall =>
                rcases hreq with hnone | ⟨ps, hps, hstr⟩
                · rw [hnone] at heqit
                  simp only [Option.getD_none, pyIter, Except.ok.injEq] at heqit
                  rw [← heqit] at hne
                  simp at hne
                · rw [hps] at heqit
                  simp only [Option.getD_some, pyIter, Except.ok.injEq] at heqit
                  refine hall ?_
                  rw [List.all_eq_true]
                  intro p hp
                  have hmem : p ∈ params := List.mem_of_mem_filter hp
                  rw [← heqit] at hmem
                  obtain ⟨s, hs⟩ := hstr p hmem
                  rw [hs]

/-- The whole `for tc_data in tool_calls` loop succeeds when every extracted
block is a JSON dict. -/
theorem processTCs_ok (σ : Type) (o : ROracles σ) (fns : List FnDef)
    (i : Nat)
    (H2 : ∀ f ∈ fns, wfFnDef f)
    (H3 : ∀ conv₂ akvs, parsedToolArgs (o.gen conv₂) = some akvs →
        Json.lookup akvs "error" = none ∨
        Json.lookup akvs "raw_response" ≠ none) :
    ∀ tcs conv evs, (∀ j ∈ tcs, ∃ kvs, j = Json.obj kvs) →
      ∀ e, processTCs σ o fns i tcs conv evs ≠ .error e := by
  intro tcs
  induction tcs with
  | nil =>
      intro conv evs _ e h
      simp [processTCs] at h
  | cons tc rest ih =>
      intro conv evs H1 e h
      obtain ⟨kvs, rfl⟩ := H1 tc (List.mem_cons_self tc rest)
      simp only [processTCs] at h
      split at h
      · next e₂ heq =>
        exact processOneTC_ok σ o fns i conv evs kvs H2 H3 e₂ heq
      · next conv₂ evs₂ heq =>
        exact ih conv₂ evs₂ (fun j hj => H1 j (List.mem_cons_of_mem _ hj)) e h

/-- Under benign hypotheses an iteration early-returns only from the
final-answer branch, with the extracted answer. -/
theorem reasoningIteration_ret (σ : Type) (o : ROracles σ)
    (enableCode : Bool) (fns : List FnDef) (i : Nat)
    (conv : List (String × String)) (st : σ) (text : String)
    (evs : List REvent) (s : Bool) (a : String)
    (H1 : ∀ j ∈ extract_tool_calls text, ∃ kvs, j = Json.obj kvs)
    (H2 : ∀ f ∈ fns, wfFnDef f)
    (H3 : ∀ conv₂ akvs, parsedToolArgs (o.gen conv₂) = some akvs →
        Json.lookup akvs "error" = none ∨
        Json.lookup akvs "raw_response" ≠ none)
    (h : (reasoningIteration σ o enableCode fns i conv st text evs).1 =
        IterRes.ret s a) :
    extract_final_answer text = some a := by
  cases htc : (extract_tool_calls text).isEmpty with
  | false =>
      rcases hp : processTCs σ o fns i (extract_tool_calls text)
          (conv ++ [("assistant", text)]) evs with e | pr
      · exact absurd hp (processTCs_ok σ o fns i H2 H3 _ _ _ H1 e)
      · simp [reasoningIteration, htc, hp] at h
  | true =>
      cases heb : extract_code_blocks text with
      | cons c cs =>
          cases hen : enableCode with
          | true =>
              simp [reasoningIteration, htc, heb, hen, runCodes] at h
          | false =>
              cases hfa : extract_final_answer text with
              | none => simp [reasoningIteration, htc, heb, hen, hfa] at h
              | some ans =>
                  simp [reasoningIteration, htc, heb, hen, hfa] at h
                  rw [h.2]
      | nil =>
          cases hfa : extract_final_answer text with
          | none => simp [reasoningIteration, htc, heb, hfa] at h
          | some ans =>
              simp [reasoningIteration, htc, heb, hfa] at h
              rw [h.2]

/-- Each loop step appends exactly one assistant text, so at most `rem`
texts are added to the accumulator. -/
theorem execLoopAux_texts_le (σ : Type) (o : ROracles σ) (enableCode : Bool)
    (fns : List FnDef) (maxIt : Nat) :
    ∀ rem i conv st texts evs,
      ((execLoopAux σ o enableCode fns maxIt rem i conv st texts
          evs).2.1).length ≤ texts.length + rem := by
  intro rem
  induction rem with
  | zero =>
      intro i conv st texts evs
      simp only [execLoopAux]
      omega
  | succ rem ih =>
      intro i conv st texts evs
      rcases heq : reasoningIteration σ o enableCode fns i conv st
          (o.gen conv) evs with ⟨ir, evs₂⟩
      cases ir with
      | ret s a =>
          simp only [execLoopAux, heq, List.length_append, List.length_cons,
            List.length_nil]
          omega
      | cont conv₂ st₂ =>
          simp only [execLoopAux, heq]
          have hrec := ih (i + 1) conv₂ st₂ (texts ++ [o.gen conv]) evs₂
          simp only [List.length_append, List.length_cons,
            List.length_nil] at hrec
          omega

/-- When no collected assistant text carries a final answer (and the
catalogue and generations are benign), the loop exhausts its fuel and
reports the max-iterations failure. -/
theorem execLoopAux_no_final (σ : Type) (o : ROracles σ) (enableCode : Bool)
    (fns : List FnDef) (maxIt : Nat)
    (H1 : ∀ conv, ∀ j ∈ extract_tool_calls (o.gen conv),
        ∃ kvs, j = Json.obj kvs)
    (H2 : ∀ f ∈ fns, wfFnDef f)
    (H3 : ∀ conv₂ akvs, parsedToolArgs (o.gen conv₂) = some akvs →
        Json.lookup akvs "error" = none ∨
        Json.lookup akvs "raw_response" ≠ none) :
    ∀ rem i conv st texts evs,
      (∀ t ∈ (execLoopAux σ o enableCode fns maxIt rem i conv st texts
          evs).2.1, extract_final_answer t = none) →
      (execLoopAux σ o enableCode fns maxIt rem i conv st texts evs).1 =
        (false, "Process stopped after reaching maximum iterations (" ++
          toString maxIt ++ ").") := by
  intro rem
  induction rem with
  | zero =>
      intro i conv st texts evs _
      rfl
  | succ rem ih =>
      intro i conv st texts evs hall
      rcases heq : reasoningIteration σ o enableCode fns i conv st
          (o.gen conv) evs with ⟨ir, evs₂⟩
      cases ir with
      | ret s a =>
          have hfa : extract_final_answer (o.gen conv) = some a :=
            reasoningIteration_ret σ o enableCode fns i conv st (o.gen conv)
              evs s a (H1 conv) H2 H3 (by rw [heq])
          have hmem : o.gen conv ∈ (execLoopAux σ o enableCode fns maxIt
              (rem + 1) i conv st texts evs).2.1 := by
            simp [execLoopAux, heq]
          have hcontra := hall _ hmem
          rw [hfa] at hcontra
          exact absurd hcontra (by simp)
      | cont conv₂ st₂ =>
          simp only [execLoopAux, heq] at hall ⊢
          exact ih (i + 1) conv₂ st₂ (texts ++ [o.gen conv]) evs₂ hall

/-- C9 counterexample: "no final answer found ⇒ the max-iterations
message" fails on the exception paths.  With `max_iterations = 1` and an
assistant text whose single `<tool_code>` block parses to a JSON array,
`tc_data.get("name", …)` raises `AttributeError`, so the loop returns
`(False, "Error during reasoning: AttributeError")` — not the
max-iterations message — although no collected text carries a
final-answer block. -/
theorem C9_counterexample :
    (execute_reasoning_loop Unit
        ⟨fun _ => "<tool_code>\n[1]\n</tool_code>", fun _ st => ("", st),
         fun _ => none⟩ true [] "q" "" "plan" false 1 ()).2.1 =
      ["<tool_code>\n[1]\n</tool_code>"] ∧
    extract_final_answer "<tool_code>\n[1]\n</tool_code>" = none ∧
    (execute_reasoning_loop Unit
        ⟨fun _ => "<tool_code>\n[1]\n</tool_code>", fun _ st => ("", st),
         fun _ => none⟩ true [] "q" "" "plan" false 1 ()).1 =
      (false, "Error during reasoning: AttributeError") ∧
    ((false, "Error during reasoning: AttributeError") : Bool × String) ≠
      (false, "Process stopped after reaching maximum iterations (1).") :=
  ⟨rfl, rfl, rfl, by simp⟩

/-- C9 (amended): the reasoning loop performs at most `max_iterations`
iterations (it collects one assistant text per iteration, so at most
`max_iterations` of them); with `max_iterations = 0` it returns the failure
`(False, "Process stopped after reaching maximum iterations (0).")`
immediately, with no model call, interpreter call or tool dispatch (empty
text and event lists) — both unconditionally.  The clause "no collected
assistant text carries a final-answer block ⇒ the result is
`(False, "Process stopped after reaching maximum iterations (N).")` with
`N = max_iterations`" holds only of exception-free runs: here under a
well-formed tool catalogue, dict-producing benign generations, and the
non-raising tool-dispatch oracle, which together exclude the in-iteration
exception paths (those return `(False, "Error during reasoning: …")`
instead). -/
theorem C9_max_iterations (σ : Type) (o : ROracles σ) (enableCode : Bool)
    (fns : List FnDef) (question guidelines initial_plan : String)
    (isReasoning : Bool) (maxIt : Nat) (st₀ : σ)
    (H1 : ∀ conv, ∀ j ∈ extract_tool_calls (o.gen conv),
        ∃ kvs, j = Json.obj kvs)
    (H2 : ∀ f ∈ fns, wfFnDef f)
    (H3 : ∀ conv₂ akvs, parsedToolArgs (o.gen conv₂) = some akvs →
        Json.lookup akvs "error" = none ∨
        Json.lookup akvs "raw_response" ≠ none) :
    (execute_reasoning_loop σ o enableCode fns question guidelines
        initial_plan isReasoning maxIt st₀).2.1.length ≤ maxIt ∧
    (maxIt = 0 →
      execute_reasoning_loop σ o enableCode fns question guidelines
          initial_plan isReasoning maxIt st₀ =
        ((false, "Process stopped after reaching maximum iterations (0)."),
          [], [])) ∧
    ((∀ t ∈ (execute_reasoning_loop σ o enableCode fns question guidelines
          initial_plan isReasoning maxIt st₀).2.1,
        extract_final_answer t = none) →
      (execute_reasoning_loop σ o enableCode fns question guidelines
          initial_plan isReasoning maxIt st₀).1 =
        (false, "Process stopped after reaching maximum iterations (" ++
          toString maxIt ++ ").")) := by
  refine ⟨?_, ?_, ?_⟩
  · have hlen := execLoopAux_texts_le σ o enableCode fns maxIt maxIt 0
      [((if isReasoning then "developer" else "system"),
          reasoningSystemPrompt fns),
        ("user", userPromptInitial question guidelines initial_plan)]
      st₀ [] []
    simp only [List.length_nil, Nat.zero_add] at hlen
    exact hlen
  · intro h0
    subst h0
    rfl
  · intro hall
    simp only [execute_reasoning_loop] at hall ⊢
    exact execLoopAux_no_final σ o enableCode fns maxIt H1 H2 H3 maxIt 0 _
      st₀ [] [] hall

/-- Witness for C9: with the benign `"hello"` oracle, an empty catalogue
and `max_iterations = 2`, the loop stops with the standard message after
two collected texts; with `max_iterations = 0` it fails immediately with
no text and no effect event. -/
theorem C9_witness :
    (execute_reasoning_loop Unit c9Oracle true [] "q" "" "plan" false
        2 ()).1 =
      (false, "Process stopped after reaching maximum iterations (2).") ∧
    (execute_reasoning_loop Unit c9Oracle true [] "q" "" "plan" false
        2 ()).2.1.length ≤ 2 ∧
    execute_reasoning_loop Unit c9Oracle true [] "q" "" "plan" false 0 () =
      ((false, "Process stopped after reaching maximum iterations (0)."),
        [], []) := by
  have H1 : ∀ conv, ∀ j ∈ extract_tool_calls (c9Oracle.gen conv),
      ∃ kvs, j = Json.obj kvs := by
    intro conv j hj
    rw [show extract_tool_calls (c9Oracle.gen conv) = [] from rfl] at hj
    exact absurd hj (by simp)
  have H2 : ∀ f ∈ ([] : List FnDef), wfFnDef f := by
    intro f hf
    exact absurd hf (by simp)
  have H3 : ∀ conv₂ akvs, parsedToolArgs (c9Oracle.gen conv₂) = some akvs →
      Json.lookup akvs "error" = none ∨
      Json.lookup akvs "raw_response" ≠ none := by
    intro conv₂ akvs hx
    rw [show parsedToolArgs (c9Oracle.gen conv₂) = none from rfl] at hx
    exact absurd hx (by simp)
  refine ⟨?_, ?_, ?_⟩
  · refine (C9_max_iterations Unit c9Oracle true [] "q" "" "plan" false
        2 () H1 H2 H3).2.2 ?_
    intro t ht
    rw [show (execute_reasoning_loop Unit c9Oracle true [] "q" "" "plan"
        false 2 ()).2.1 = ["hello", "hello"] from rfl] at ht
    simp at ht
    rw [ht]
    rfl
  · exact (C9_max_iterations Unit c9Oracle true [] "q" "" "plan" false
      2 () H1 H2 H3).1
  · exact (C9_max_iterations Unit c9Oracle true [] "q" "" "plan" false
      0 () H1 H2 H3).2.1 rfl

end DolphinMCP
